import Mathlib

/-!
# TARCF compositor frame (`src/MCDV/CompositorFrame.hpp`)

A shallow embedding of the node-type / node-instance graph engine of the
compositor frame, and theorems about it.

Conventions of the embedding

* A `NodeInstance*` is an address: an index into the list of live instances
  (`World.heap`); the null pointer is `none`.
* `std::map<std::string, T>` is an association list with unique keys
  (`Map T`); `std::map::insert` does not overwrite an existing key.
* A `void*` source is the list of bytes readable at that address, with a
  flag that tells whether that memory overlaps the buffer of the property it
  is copied into (`Source`).
* An `unsigned int` that a computation can carry past its range is reduced
  modulo 2^32.
* A member that a constructor never writes holds an indeterminate value,
  modelled by `none`.
* Behaviour the C++ standard leaves undefined (null or dangling dereference,
  out-of-range `operator[]`, reading past a buffer) is the fault
  `Fault.undefinedBehaviour`; running out of recursion depth is
  `Fault.depthExceeded`.
* OpenGL, the shader compiler, the image decoder and the key-value reader are
  external: OpenGL is a small state machine (`GLState`) that also logs every
  call, the others are parameters.
-/

namespace TARCF

/-! ## Faults -/

/-- Ways in which an operation of the embedding does not produce a result. -/
inductive Fault where
  | undefinedBehaviour
  | depthExceeded
  | exception
  deriving DecidableEq, Repr

/-- Result of an operation that may fault. -/
abbrev Result (α : Type) := Except Fault α

/-- Dereference of an optional value: `none` is undefined behaviour. -/
def deref {α : Type} : Option α → Result α
  | some a => .ok a
  | none => .error Fault.undefinedBehaviour

/-! ## Constants -/

def GL_INT : Nat := 0x1404
def GL_FLOAT : Nat := 0x1406
def GL_FLOAT_VEC2 : Nat := 0x8B50
def GL_FLOAT_VEC3 : Nat := 0x8B51
def GL_FLOAT_VEC4 : Nat := 0x8B52
def GL_SAMPLER_2D : Nat := 0x8B5E
def EXTRATYPE_STRING : Nat := 8989124
def MAX_CHANNELS : Nat := 16

/-! ## `std::map<std::string, T>` -/

/-- Association list standing for `std::map<std::string, T>`. -/
abbrev Map (α : Type) := List (String × α)

/-- The value stored under a key (`find`). -/
def Map.find {α : Type} : Map α → String → Option α
  | [], _ => none
  | (k, v) :: rest, key => if k = key then some v else Map.find rest key

/-- Embeds `std::map::count`: 1 when the key is present, 0 otherwise. -/
def Map.count {α : Type} (m : Map α) (key : String) : Nat :=
  match Map.find m key with
  | some _ => 1
  | none => 0

/-- Embeds `std::map::insert`: adds the pair unless the key is already present. -/
def Map.insert {α : Type} (m : Map α) (kv : String × α) : Map α :=
  match Map.find m kv.1 with
  | some _ => m
  | none => m ++ [kv]

/-- Overwrites the value stored under an existing key (assignment through
the reference that `operator[]` returns). -/
def Map.assign {α : Type} : Map α → String → α → Map α
  | [], _, _ => []
  | (k, v) :: rest, key, x =>
    if k = key then (k, x) :: rest else (k, v) :: Map.assign rest key x

/-! ## Property values: `struct prop` -/

/-- Embeds `strlen`: the number of bytes before the first NUL; reading past the
buffer without meeting one is undefined. -/
def strlen : List Nat → Option Nat
  | [] => none
  | b :: rest => if b = 0 then some 0 else (strlen rest).map (· + 1)

/-- Embeds `struct prop`. `value = none` is the null pointer; a `none` in another
field is an indeterminate value. -/
structure prop where
  type : Option Nat
  dsize : Option Nat
  value : Option (List Nat) := none
  uniformloc : Option Int
  deriving DecidableEq, Repr

/-- The `void* src` argument of `setValue`: the bytes readable at the
address, and whether that memory overlaps the buffer `value` of the property
the call is made on. -/
structure Source where
  bytes : List Nat
  overlapsValue : Bool
  deriving DecidableEq, Repr

/-- Embeds `prop::setValue(void* src)`. The member `dsize` is an
`unsigned int`, so `strlen(src) + 1` is stored modulo 2^32. A source that
overlaps the buffer of the property is undefined behaviour: `memcpy` on
overlapping memory in the first branch, a read of the buffer after
`free(value)` in the second. -/
def prop.setValue (p : prop) (src : Source) : Result prop :=
  if p.type ≠ some EXTRATYPE_STRING then
    -- memcpy(value, src, dsize)
    match p.dsize, p.value with
    | some n, some v =>
      if n ≤ src.bytes.length ∧ n ≤ v.length ∧ (src.overlapsValue = false ∨ n = 0) then
        .ok { p with value := some (src.bytes.take n ++ v.drop n) }
      else .error Fault.undefinedBehaviour
    | _, _ => .error Fault.undefinedBehaviour
  else
    match strlen src.bytes with
    | none => .error Fault.undefinedBehaviour
    | some n =>
      -- dsize = strlen(src) + 1; free(value); value = malloc(dsize); memcpy
      if src.overlapsValue then .error Fault.undefinedBehaviour
      else
        .ok { p with
          dsize := some ((n + 1) % 2 ^ 32)
          value := some (src.bytes.take ((n + 1) % 2 ^ 32)) }

/-- Default constructor `prop() {}`: only `value` has an initializer. -/
def prop.default : prop :=
  { type := none, dsize := none, value := none, uniformloc := none }

/-- The storage size the constructor's `switch` selects, `none` for the
`default:` branch; for a string it is `strlen(src) + 1` as an `unsigned int`,
that is modulo 2^32. -/
def prop.sizeOfType (eDataType : Nat) (src : Option (List Nat)) : Option (Result Nat) :=
  if eDataType = GL_FLOAT then some (.ok 4)
  else if eDataType = GL_FLOAT_VEC2 then some (.ok 8)
  else if eDataType = GL_FLOAT_VEC3 then some (.ok 12)
  else if eDataType = GL_FLOAT_VEC4 then some (.ok 16)
  else if eDataType = GL_INT then some (.ok 4)
  else if eDataType = EXTRATYPE_STRING then
    some (match src with
      | none => .error Fault.undefinedBehaviour
      | some s => (deref (strlen s)).map fun n => (n + 1) % 2 ^ 32)
  else none

/-- Constructor `prop(GLenum eDataType, void* src, int uniformLocation = 0)`. -/
def prop.new (eDataType : Nat) (src : Option (List Nat)) (uniformLocation : Int) :
    Result prop :=
  match prop.sizeOfType eDataType src with
  | none =>
    -- unsupported type: warning, early return
    .ok { type := some eDataType, dsize := none, value := none,
          uniformloc := some uniformLocation }
  | some (.error f) => .error f
  | some (.ok n) =>
    -- value = calloc(dsize, 1); if (src) memcpy(value, src, dsize)
    match src with
    | none =>
      .ok { type := some eDataType, dsize := some n,
            value := some (List.replicate n 0), uniformloc := some uniformLocation }
    | some s =>
      if n ≤ s.length then
        .ok { type := some eDataType, dsize := some n, value := some (s.take n),
              uniformloc := some uniformLocation }
      else .error Fault.undefinedBehaviour

/-- Move constructor `prop(prop&& other)`: takes `dsize`, `type`, `value`;
`uniformloc` is not written. -/
def prop.move (other : prop) : prop :=
  { type := other.type, dsize := other.dsize, value := other.value, uniformloc := none }

/-- Copy constructor `prop(const prop& other)`: `malloc(dsize)` and `memcpy`
of `dsize` bytes; `uniformloc` is not written. -/
def prop.copy (other : prop) : Result prop :=
  match other.dsize, other.value with
  | some n, some v =>
    if n ≤ v.length then
      .ok { type := other.type, dsize := some n, value := some (v.take n),
            uniformloc := none }
    else .error Fault.undefinedBehaviour
  | _, _ => .error Fault.undefinedBehaviour

/-! ## Pins, shaders, node types -/

/-- Embeds `struct Pin`. -/
structure Pin where
  name : String
  location : Int := -1
  deriving DecidableEq, Repr

/-- What the core needs of a compiled `Shader`: its symbolic name, its
program handle, and the active uniforms as `glGetActiveUniform` reports them
into the 32-byte name buffer, in index order (name, type). -/
structure Shader where
  symbolicName : String
  programID : Nat
  uniforms : List (String × Nat)
  deriving DecidableEq, Repr

/-- The dynamic type of a node type, which selects the virtual functions:
`Node` (plain `BaseNode` behaviour), `Atomic::TextureNode`, `Atomic::Distance`. -/
inductive NodeKind where
  | node
  | textureNode
  | distance
  deriving DecidableEq, Repr

/-- Embeds `class BaseNode` with its dynamic type. -/
structure BaseNode where
  kind : NodeKind
  m_operator_shader : Shader
  m_prop_definitions : Map prop
  m_input_definitions : List Pin
  m_output_definitions : List Pin
  deriving DecidableEq, Repr

/-- One iteration of the uniform loop of the `BaseNode` constructor, for the
uniform of index `i` reported as `(name, type)`. -/
def BaseNode.addUniform (n : BaseNode) (i : Nat) (u : String × Nat) : Result BaseNode :=
  if u.2 = GL_FLOAT ∨ u.2 = GL_FLOAT_VEC2 ∨ u.2 = GL_FLOAT_VEC3 ∨ u.2 = GL_FLOAT_VEC4 then
    -- m_prop_definitions.insert({ name, prop(type, NULL, i) }): the temporary
    -- is moved into the map node
    (prop.new u.2 none i).map fun p =>
      { n with m_prop_definitions := Map.insert n.m_prop_definitions (u.1, prop.move p) }
  else if u.2 = GL_SAMPLER_2D then
    .ok { n with m_input_definitions := n.m_input_definitions ++ [{ name := u.1, location := i }] }
  else .ok n

/-- The uniform loop `for (int i = 0; i < count; i++)`, started at index `i`. -/
def BaseNode.addUniforms : BaseNode → Nat → List (String × Nat) → Result BaseNode
  | n, _, [] => .ok n
  | n, i, u :: rest => (BaseNode.addUniform n i u).bind fun n1 => BaseNode.addUniforms n1 (i + 1) rest

/-- Constructor `BaseNode(Shader* sOpShader)`, for the dynamic type `kind`. -/
def BaseNode.new (kind : NodeKind) (sOpShader : Shader) : Result BaseNode :=
  BaseNode.addUniforms
    { kind := kind, m_operator_shader := sOpShader, m_prop_definitions := [],
      m_input_definitions := [], m_output_definitions := [] }
    0 sOpShader.uniforms

/-- The bytes of a 32-bit `int` as `memcpy` reads them (little-endian). -/
def intBytes (v : Nat) : List Nat :=
  [v % 256, v / 256 % 256, v / 65536 % 256, v / 16777216 % 256]

/-- Embeds `operator[]` followed by `setValue` on a property map: a missing key is
first inserted with a default-constructed `prop`. -/
def Map.setValueAt (m : Map prop) (key : String) (src : Source) : Result (Map prop) :=
  match Map.find m key with
  | some p => (p.setValue src).map fun p1 => Map.assign m key p1
  | none => (prop.default.setValue src).map fun p1 => m ++ [(key, p1)]

/-- Constructor `Atomic::TextureNode(const std::string& sSource)`; `passthrough`
is `SHADERLIB::passthrough`, `sSource` the characters of the path. -/
def TextureNode.new (passthrough : Shader) (sSource : List Nat) : Result BaseNode :=
  (BaseNode.new NodeKind.textureNode passthrough).bind fun n =>
  (prop.new EXTRATYPE_STRING (some (sSource ++ [0])) 0).map fun p =>
    { n with
      m_prop_definitions := Map.insert n.m_prop_definitions ("source", prop.move p)
      m_output_definitions := n.m_output_definitions ++ [{ name := "output", location := 0 }] }

/-- Constructor `Atomic::Distance()`; `distance` is `SHADERLIB::distance`. -/
def Distance.new (distance : Shader) : Result BaseNode :=
  (BaseNode.new NodeKind.distance distance).bind fun n =>
  (prop.new GL_INT none (-1)).bind fun p =>
  let defs := Map.insert n.m_prop_definitions ("maxdist", prop.move p)
  (Map.setValueAt defs "maxdist" (Source.mk (intBytes 255) false)).map fun defs1 =>
    { n with
      m_prop_definitions := defs1
      m_output_definitions := n.m_output_definitions ++ [{ name := "output", location := 0 }]
      m_input_definitions := n.m_input_definitions ++ [{ name := "input", location := 0 }] }

/-! ## Connections and node instances -/

/-- Embeds `struct Connection`: the connected instance and the pin index on it. -/
structure Connection where
  ptrNode : Option Nat
  uConID : Nat
  deriving DecidableEq, Repr

/-- Embeds `class NodeInstance`. -/
structure NodeInstance where
  m_isDirty : Bool := true
  m_con_outputs : List (List Connection)
  m_con_inputs : List Connection
  m_gl_texture_ids : List Nat
  m_gl_texture_w : Nat
  m_gl_texture_h : Nat
  m_gl_framebuffers : List Nat
  m_nodeid : String
  m_properties : Map prop
  deriving DecidableEq, Repr

/-! ## OpenGL as a state machine -/

/-- The OpenGL, `Shader` and `Mesh` calls the compositor issues. Texture
units and colour attachments are given as offsets from `GL_TEXTURE0` and
`GL_COLOR_ATTACHMENT0`. -/
inductive GLCall where
  | genFramebuffers (n first : Nat)
  | bindFramebuffer (fb : Nat)
  | genTextures (tex : Nat)
  | bindTexture (tex : Nat)
  | texImage2D (w h : Nat) (hasData : Bool)
  | texParameteri
  | framebufferTexture2D (attachment tex : Nat)
  | drawBuffers (n : Nat)
  | viewport (w h : Nat)
  | activeTexture (unit : Nat)
  | deleteTextures (tex : Nat)
  | checkFramebufferStatus
  | useProgram (program : Nat)
  | setFloat (name : String) (i : Nat)
  | draw
  deriving DecidableEq, Repr

/-- What a draw of the full-screen quad sees: the framebuffer it renders
into, the program in use, and the texture bound to each unit. -/
structure DrawRecord where
  framebuffer : Nat
  program : Nat
  units : List (Nat × Nat)
  deriving DecidableEq, Repr

/-- The part of the OpenGL context state the compositor depends on. Object
names are handed out from counters, so a generated name is unused. `units`
and `attachments` are association lists, latest binding first. -/
structure GLState where
  nextTexture : Nat
  nextFramebuffer : Nat
  framebuffer : Nat
  activeUnit : Nat
  units : List (Nat × Nat)
  attachments : List ((Nat × Nat) × Nat)
  program : Nat
  draws : List DrawRecord
  calls : List GLCall
  deriving DecidableEq, Repr

/-- Latest value bound to a key in an association list, 0 when unbound. -/
def lookup0 {κ : Type} [DecidableEq κ] : List (κ × Nat) → κ → Nat
  | [], _ => 0
  | (k, v) :: rest, key => if k = key then v else lookup0 rest key

/-- The texture bound to `GL_TEXTURE_2D` on a unit. -/
def GLState.boundTexture (g : GLState) (unit : Nat) : Nat := lookup0 g.units unit

/-- The texture attached to a colour attachment of a framebuffer. -/
def GLState.attachment (g : GLState) (fb slot : Nat) : Nat := lookup0 g.attachments (fb, slot)

/-- The texture bound to a unit when the draw was issued. -/
def DrawRecord.texture (r : DrawRecord) (unit : Nat) : Nat := lookup0 r.units unit

/-- The texture a draw renders into: colour attachment 0 of its framebuffer. -/
def DrawRecord.target (g : GLState) (r : DrawRecord) : Nat := g.attachment r.framebuffer 0

def GLState.log (g : GLState) (c : GLCall) : GLState := { g with calls := g.calls ++ [c] }

/-- Embeds `glGenFramebuffers(n, ..)`: the `n` names written to the array. -/
def glGenFramebuffers (g : GLState) (n : Nat) : List Nat × GLState :=
  (List.range' g.nextFramebuffer n,
   { g with nextFramebuffer := g.nextFramebuffer + n }.log (.genFramebuffers n g.nextFramebuffer))

def glBindFramebuffer (g : GLState) (fb : Nat) : GLState :=
  { g with framebuffer := fb }.log (.bindFramebuffer fb)

/-- Embeds `glGenTextures(1, ..)`: the name written. -/
def glGenTextures (g : GLState) : Nat × GLState :=
  (g.nextTexture, { g with nextTexture := g.nextTexture + 1 }.log (.genTextures g.nextTexture))

def glBindTexture (g : GLState) (tex : Nat) : GLState :=
  { g with units := (g.activeUnit, tex) :: g.units }.log (.bindTexture tex)

def glActiveTexture (g : GLState) (unit : Nat) : GLState :=
  { g with activeUnit := unit }.log (.activeTexture unit)

def glTexImage2D (g : GLState) (w h : Nat) (hasData : Bool) : GLState :=
  g.log (.texImage2D w h hasData)

def glTexParameteri (g : GLState) : GLState := g.log .texParameteri

def glFramebufferTexture2D (g : GLState) (slot tex : Nat) : GLState :=
  { g with attachments := ((g.framebuffer, slot), tex) :: g.attachments }.log
    (.framebufferTexture2D slot tex)

def glDrawBuffers (g : GLState) (n : Nat) : GLState := g.log (.drawBuffers n)

def glViewport (g : GLState) (w h : Nat) : GLState := g.log (.viewport w h)

/-- Embeds `glDeleteTextures(1, ..)`: the texture is unbound from every unit and
detached from the bound framebuffer. -/
def glDeleteTextures (g : GLState) (tex : Nat) : GLState :=
  { g with
    units := g.units.map fun (b : Nat × Nat) => if b.2 = tex then (b.1, 0) else b
    attachments := g.attachments.map fun (a : (Nat × Nat) × Nat) =>
      if a.1.1 = g.framebuffer ∧ a.2 = tex then (a.1, 0) else a }.log (.deleteTextures tex)

def glCheckFramebufferStatus (g : GLState) : GLState := g.log .checkFramebufferStatus

/-- Embeds `Shader::use()`. -/
def Shader.use (sh : Shader) (g : GLState) : GLState :=
  { g with program := sh.programID }.log (.useProgram sh.programID)

/-- Embeds `Shader::setFloat(name, value)`; for the distance pass the logged number
is the loop index `i` the value `(255.0f - (float)i) * 0.00392156862f` is
computed from. -/
def Shader.setFloat (_sh : Shader) (g : GLState) (name : String) (i : Nat) : GLState :=
  g.log (.setFloat name i)

/-- Embeds `Mesh::Draw()` on the full-screen quad. -/
def Mesh.Draw (g : GLState) : GLState :=
  { g with
    draws := g.draws ++
      [DrawRecord.mk g.framebuffer g.program g.units] }.log .draw

/-! ## The process state -/

/-- Read-only surroundings of the graph operations: the node library
`NODELIB` as `init` leaves it, and the image decoder `stbi_load` (file path
to the decoded width and height, `none` when decoding fails). -/
structure Env where
  NODELIB : Map BaseNode
  stbi_load : List Nat → Option (Nat × Nat)

/-- The mutable state: the live instances by address, the OpenGL context,
and the addresses on which a node-type `compute` was dispatched, in order. -/
structure World where
  heap : List NodeInstance
  gl : GLState
  dispatched : List Nat
  deriving DecidableEq, Repr

/-! ## Virtual functions of the node types -/

/-- Embeds `BaseNode::v_gen_buffers`. -/
def BaseNode.v_gen_buffers_base (inst : NodeInstance) (g : GLState) :
    NodeInstance × GLState :=
  let r := glGenFramebuffers g 1
  let inst1 := { inst with
    m_gl_framebuffers := inst.m_gl_framebuffers.set 0 (r.1.getD 0 0) }
  (inst1, glBindFramebuffer r.2 (inst1.m_gl_framebuffers.getD 0 0))

/-- Embeds `Atomic::Distance::v_gen_buffers`: front and back buffer. -/
def Distance.v_gen_buffers (inst : NodeInstance) (g : GLState) :
    NodeInstance × GLState :=
  let r := glGenFramebuffers g 2
  let inst1 := { inst with
    m_gl_framebuffers :=
      (inst.m_gl_framebuffers.set 0 (r.1.getD 0 0)).set 1 (r.1.getD 1 0) }
  (inst1, glBindFramebuffer r.2 (inst1.m_gl_framebuffers.getD 0 0))

/-- The loop of `BaseNode::v_gen_tex_memory` over the output definitions,
with the running index `id`; writing `m_gl_texture_ids[id]` past the array is
undefined. -/
def BaseNode.genTextures : List Pin → Nat → NodeInstance → GLState →
    Result (NodeInstance × GLState)
  | [], _, inst, g => .ok (inst, g)
  | _ :: rest, id, inst, g =>
    if id < MAX_CHANNELS then
      let r := glGenTextures g
      let inst1 := { inst with m_gl_texture_ids := inst.m_gl_texture_ids.set id r.1 }
      let tex := inst1.m_gl_texture_ids.getD id 0
      let g1 := glBindTexture r.2 tex
      let g2 := glTexImage2D g1 inst1.m_gl_texture_w inst1.m_gl_texture_h false
      let g3 := glTexParameteri (glTexParameteri g2)
      let g4 := glFramebufferTexture2D g3 id tex
      BaseNode.genTextures rest (id + 1) inst1 g4
    else .error Fault.undefinedBehaviour

/-- Embeds `BaseNode::v_gen_tex_memory`. -/
def BaseNode.v_gen_tex_memory_base (self : BaseNode) (inst : NodeInstance) (g : GLState) :
    Result (NodeInstance × GLState) :=
  (BaseNode.genTextures self.m_output_definitions 0 inst g).map fun r =>
    (r.1, glDrawBuffers r.2 self.m_output_definitions.length)

/-- Embeds `Atomic::TextureNode::v_gen_tex_memory`: the texture is loaded from the
file named by the `source` property. -/
def TextureNode.v_gen_tex_memory (env : Env) (inst : NodeInstance) (g : GLState) :
    Result (NodeInstance × GLState) :=
  let g1 := glBindFramebuffer g (inst.m_gl_framebuffers.getD 0 0)
  let r := glGenTextures g1
  let inst1 := { inst with m_gl_texture_ids := inst.m_gl_texture_ids.set 0 r.1 }
  let tex := inst1.m_gl_texture_ids.getD 0 0
  let g2 := glBindTexture r.2 tex
  -- stbi_load((char*)instance->m_properties["source"].value, ...)
  (deref (Map.find inst1.m_properties "source")).bind fun p =>
  (deref p.value).bind fun bytes =>
  (deref (strlen bytes)).map fun n =>
  let data := env.stbi_load (bytes.take n)
  let inst2 := match data with
    | some wh => { inst1 with m_gl_texture_w := wh.1, m_gl_texture_h := wh.2 }
    | none => inst1
  let g3 := glTexImage2D g2 inst2.m_gl_texture_w inst2.m_gl_texture_h data.isSome
  let g4 := glTexParameteri (glTexParameteri g3)
  let g5 := glFramebufferTexture2D g4 0 tex
  (inst2, glDrawBuffers g5 1)

/-- Embeds `Atomic::Distance::v_gen_tex_memory`: back buffer, then front buffer. -/
def Distance.v_gen_tex_memory (inst : NodeInstance) (g : GLState) :
    NodeInstance × GLState :=
  -- BACK BUFFER
  let g1 := glBindFramebuffer g (inst.m_gl_framebuffers.getD 0 0)
  let r := glGenTextures g1
  let inst1 := { inst with m_gl_texture_ids := inst.m_gl_texture_ids.set 0 r.1 }
  let tex0 := inst1.m_gl_texture_ids.getD 0 0
  let g2 := glBindTexture r.2 tex0
  let g3 := glTexImage2D g2 inst1.m_gl_texture_w inst1.m_gl_texture_h false
  let g4 := glTexParameteri (glTexParameteri g3)
  let g5 := glFramebufferTexture2D g4 0 tex0
  let g6 := glDrawBuffers g5 1
  -- FRONT BUFFER
  let g7 := glBindFramebuffer g6 (inst1.m_gl_framebuffers.getD 1 0)
  let r1 := glGenTextures g7
  let inst2 := { inst1 with m_gl_texture_ids := inst1.m_gl_texture_ids.set 1 r1.1 }
  let tex1 := inst2.m_gl_texture_ids.getD 1 0
  let g8 := glBindTexture r1.2 tex1
  let g9 := glTexImage2D g8 inst2.m_gl_texture_w inst2.m_gl_texture_h false
  let g10 := glTexParameteri (glTexParameteri g9)
  let g11 := glFramebufferTexture2D g10 0 tex1
  (inst2, glDrawBuffers g11 1)

/-- Virtual dispatch of `v_gen_buffers`. -/
def BaseNode.v_gen_buffers (self : BaseNode) (inst : NodeInstance) (g : GLState) :
    NodeInstance × GLState :=
  match self.kind with
  | .distance => Distance.v_gen_buffers inst g
  | _ => BaseNode.v_gen_buffers_base inst g

/-- Virtual dispatch of `v_gen_tex_memory`. -/
def BaseNode.v_gen_tex_memory (env : Env) (self : BaseNode) (inst : NodeInstance)
    (g : GLState) : Result (NodeInstance × GLState) :=
  match self.kind with
  | .node => BaseNode.v_gen_tex_memory_base self inst g
  | .textureNode => TextureNode.v_gen_tex_memory env inst g
  | .distance => .ok (Distance.v_gen_tex_memory inst g)

/-- Embeds `BaseNode::compute`: one pass of the operator shader into framebuffer 0. -/
def BaseNode.compute_base (self : BaseNode) (node : NodeInstance) (g : GLState) : GLState :=
  let g1 := glViewport g node.m_gl_texture_w node.m_gl_texture_h
  let g2 := glBindFramebuffer g1 (node.m_gl_framebuffers.getD 0 0)
  let g3 := self.m_operator_shader.use g2
  let g4 := Mesh.Draw g3
  glBindFramebuffer g4 0

/-- Embeds `Atomic::TextureNode::compute`: the texture is deleted and loaded again. -/
def TextureNode.compute (env : Env) (node : NodeInstance) (g : GLState) :
    Result (NodeInstance × GLState) :=
  let g1 := if node.m_gl_texture_ids.getD 0 0 ≠ 0 then
      glDeleteTextures g (node.m_gl_texture_ids.getD 0 0) else g
  TextureNode.v_gen_tex_memory env node g1

/-- Body of the loop of `Atomic::Distance::compute` for the index `i`;
`sh` is `NODELIB[node->m_nodeid]->m_operator_shader`. -/
def Distance.pass (sh : Shader) (node : NodeInstance) (g : GLState) (i : Nat) : GLState :=
  let g1 := glBindFramebuffer g (node.m_gl_framebuffers.getD (i % 2) 0)
  let g2 := if i > 0 then glBindTexture g1 (node.m_gl_texture_ids.getD ((i + 1) % 2) 0) else g1
  let g3 := sh.setFloat g2 "iter" i
  Mesh.Draw g3

/-- The loop `for (int i = 0; i < 255; i++)` of `Atomic::Distance::compute`,
with the bound as a parameter. -/
def Distance.passes (sh : Shader) (node : NodeInstance) (g : GLState) (bound : Nat) : GLState :=
  (List.range bound).foldl (Distance.pass sh node) g

/-- Embeds `Atomic::Distance::compute`. -/
def Distance.compute (env : Env) (node : NodeInstance) (g : GLState) : Result GLState :=
  let g1 := glViewport g node.m_gl_texture_w node.m_gl_texture_h
  (deref (Map.find env.NODELIB node.m_nodeid)).map fun type =>
  let g2 := type.m_operator_shader.use g1
  let g3 := Mesh.Draw g2
  let g4 := Distance.passes type.m_operator_shader node g3 255
  glBindFramebuffer g4 0

/-- Virtual dispatch of `compute(NodeInstance* node)`. -/
def BaseNode.compute (env : Env) (self : BaseNode) (node : NodeInstance) (g : GLState) :
    Result (NodeInstance × GLState) :=
  match self.kind with
  | .node => .ok (node, BaseNode.compute_base self node g)
  | .textureNode => TextureNode.compute env node g
  | .distance => (Distance.compute env node g).map fun g1 => (node, g1)

/-! ## `class NodeInstance`: constructor, `compute`, `setProperty`, `connect` -/

/-- The loop of the constructor that copies the property definitions:
`m_properties.insert({ p.first, prop(p.second) })`, a copy that is then
moved into the map. -/
def NodeInstance.copyProperties : Map prop → Map prop → Result (Map prop)
  | [], acc => .ok acc
  | p :: rest, acc =>
    (prop.copy p.2).bind fun c =>
      NodeInstance.copyProperties rest (Map.insert acc (p.1, prop.move c))

/-- Constructor `NodeInstance(iWidth, iHeight, sNodeId)`. The new instance
is placed at the first free address, which is returned with the new state. -/
def NodeInstance.new (env : Env) (w : World) (iWidth iHeight : Nat) (sNodeId : String) :
    Result (World × Nat) :=
  let this0 : NodeInstance :=
    { m_isDirty := true, m_con_outputs := [], m_con_inputs := [],
      m_gl_texture_ids := List.replicate MAX_CHANNELS 0,
      m_gl_texture_w := iWidth, m_gl_texture_h := iHeight,
      m_gl_framebuffers := List.replicate MAX_CHANNELS 0,
      m_nodeid := sNodeId, m_properties := [] }
  (deref (Map.find env.NODELIB this0.m_nodeid)).bind fun type =>
  let r1 := type.v_gen_buffers this0 w.gl
  -- Copy properties
  (NodeInstance.copyProperties type.m_prop_definitions r1.1.m_properties).bind fun props =>
  let this1 := { r1.1 with m_properties := props }
  -- Copy in/outs as connections
  let this2 := { this1 with
    m_con_inputs := this1.m_con_inputs ++
      type.m_input_definitions.map fun _ => Connection.mk none 0 }
  let this3 := { this2 with
    m_con_outputs := this2.m_con_outputs ++ type.m_output_definitions.map fun _ => [] }
  -- Generate texture memory for this node
  (type.v_gen_tex_memory env this3 r1.2).map fun r2 =>
  ({ w with heap := w.heap ++ [r2.1], gl := glCheckFramebufferStatus r2.2 }, w.heap.length)

/-- First loop of `compute`: every occupied input slot whose source is dirty
has the source computed; `recurse` is `compute` on another instance. -/
def NodeInstance.computeInputs (recurse : World → Nat → Result World) :
    List Connection → World → Result World
  | [], w => .ok w
  | input :: rest, w =>
    match input.ptrNode with
    | none => NodeInstance.computeInputs recurse rest w
    | some p =>
      (deref w.heap[p]?).bind fun src =>
        if src.m_isDirty then
          (recurse w p).bind fun w1 => NodeInstance.computeInputs recurse rest w1
        else NodeInstance.computeInputs recurse rest w

/-- Second loop of `compute` ("Pull inputs"), with the running `inputnum`. -/
def NodeInstance.pullInputs (heap : List NodeInstance) :
    List Connection → Nat → GLState → Result GLState
  | [], _, g => .ok g
  | input :: rest, inputnum, g =>
    match input.ptrNode with
    | none => NodeInstance.pullInputs heap rest inputnum g
    | some p =>
      (deref heap[p]?).bind fun src =>
        let g1 := glActiveTexture g inputnum
        let g2 := glBindTexture g1 (src.m_gl_texture_ids.getD 0 0)
        NodeInstance.pullInputs heap rest (inputnum + 1) g2

/-- Embeds `NodeInstance::compute()` on the instance at address `self`, with at
most `depth` nested calls. The vector `m_con_inputs` of `self` is read before
the first loop and again before the second. -/
def NodeInstance.compute (env : Env) : Nat → World → Nat → Result World
  | 0, _, _ => .error Fault.depthExceeded
  | depth + 1, w, self =>
    (deref w.heap[self]?).bind fun this0 =>
    -- Compute any dependent input nodes if they are dirty
    (NodeInstance.computeInputs (NodeInstance.compute env depth) this0.m_con_inputs w).bind
      fun w1 =>
    (deref w1.heap[self]?).bind fun this1 =>
    -- Pull inputs
    (NodeInstance.pullInputs w1.heap this1.m_con_inputs 0 w1.gl).bind fun g1 =>
    let g2 := glActiveTexture g1 0
    -- Compute this node
    (deref (Map.find env.NODELIB this1.m_nodeid)).bind fun type =>
    (type.compute env this1 g2).map fun r =>
    -- Mark this as done
    let this2 : NodeInstance := { r.1 with m_isDirty := false }
    { heap := w1.heap.set self this2, gl := r.2, dispatched := w1.dispatched ++ [self] }

/-- Embeds `NodeInstance::setProperty(propname, ptr)` on the instance at `self`. -/
def NodeInstance.setProperty (w : World) (self : Nat) (propname : String) (ptr : Source) :
    Result World :=
  (deref w.heap[self]?).bind fun this0 =>
    if Map.count this0.m_properties propname ≠ 0 then
      (Map.setValueAt this0.m_properties propname ptr).map fun props =>
        let this1 : NodeInstance := { this0 with m_properties := props }
        { w with heap := w.heap.set self this1 }
    else .ok w

/-- Embeds `NodeInstance::connect(src, dst, conSrcID, conDstID)`. -/
def NodeInstance.connect (w : World) (src dst : Nat) (conSrcID conDstID : Nat) :
    Result World :=
  -- src->m_con_outputs[conSrcID].push_back( Connection(dst, conDstID) )
  (deref w.heap[src]?).bind fun s =>
  (deref s.m_con_outputs[conSrcID]?).bind fun outs =>
  let s1 : NodeInstance :=
    { s with
      m_con_outputs := s.m_con_outputs.set conSrcID (outs ++ [Connection.mk (some dst) conDstID]) }
  let heap1 := w.heap.set src s1
  -- dst->m_con_inputs[conDstID] = Connection(src, conSrcID)
  (deref heap1[dst]?).bind fun d =>
  if conDstID < d.m_con_inputs.length then
    let d1 : NodeInstance :=
      { d with m_con_inputs := d.m_con_inputs.set conDstID (Connection.mk (some src) conSrcID) }
    .ok { w with heap := heap1.set dst d1 }
  else .error Fault.undefinedBehaviour

/-! ## `TARCF::init`: population of the node library -/

/-- Modelled from the spec: `kv::DataBlock` of the key-value reader
(`vdf.hpp`, not part of the core), a named block with string values and
nested sub-blocks. -/
inductive DataBlock where
  | mk (name : String) (Values : Map String) (SubBlocks : List DataBlock)

/-- Name of a block. -/
def DataBlock.name : DataBlock → String
  | .mk n _ _ => n

/-- String values of a block. -/
def DataBlock.Values : DataBlock → Map String
  | .mk _ v _ => v

/-- Sub-blocks of a block, in document order. -/
def DataBlock.SubBlocks : DataBlock → List DataBlock
  | .mk _ _ b => b

/-- Modelled from the spec: `DataBlock::GetFirstByName` of the key-value
reader, the first sub-block of that name, or the null pointer. -/
def DataBlock.GetFirstByName (b : DataBlock) (name : String) : Option DataBlock :=
  b.SubBlocks.find? fun c => c.name = name

/-- Modelled from the spec: `DataBlock::GetAllByName` of the key-value
reader, every sub-block of that name, in document order. -/
def DataBlock.GetAllByName (b : DataBlock) (name : String) : List DataBlock :=
  b.SubBlocks.filter fun c => c.name = name

/-- Modelled from the spec: `kv::tryGetStringValue` of the key-value reader,
the value stored under the key, or the fallback when the key is missing. -/
def tryGetStringValue (values : Map String) (key : String) (fallback : String) : String :=
  match Map.find values key with
  | some v => v
  | none => fallback

/-- One entry of the `tarcfnode` directory: its file name, and the head
node the reader parses from it (`none` when the file cannot be opened). -/
structure DirEntry where
  filename : String
  headNode : Option DataBlock

/-- External services `init` relies on: the shader compiler (vertex path,
fragment path, symbolic name), the helper `split`, and the order in which
the compiler evaluates the two arguments of `Pin(.., autoNames++)`, which the
language leaves open. -/
structure InitEnv where
  compile : String → String → String → Shader
  split : String → String → List String
  incrementFirst : Bool

/-- The loop over the declared outputs, with the running `autoNames`. -/
def init.addOutputs (ienv : InitEnv) : List DataBlock → Nat → BaseNode → BaseNode
  | [], _, n => n
  | outputDef :: rest, autoNames, n =>
    let shown := if ienv.incrementFirst then autoNames + 1 else autoNames
    let pin : Pin :=
      { name := tryGetStringValue outputDef.Values "name" ("output_" ++ toString shown),
        location := autoNames }
    init.addOutputs ienv rest (autoNames + 1)
      { n with m_output_definitions := n.m_output_definitions ++ [pin] }

/-- The generic node type `init` builds from the `info` and `shader` blocks
of a descriptor (up to `showInfo`, which only logs). -/
def init.buildNode (ienv : InitEnv) (block_info block_shader : DataBlock) : Result BaseNode :=
  (BaseNode.new NodeKind.node
    (ienv.compile
      (tryGetStringValue block_shader.Values "vertex" "shaders/engine/quadbase.vs")
      (tryGetStringValue block_shader.Values "fragment" "shaders/engine/tarcfnode/passthrough.fs")
      ("tarcfn::" ++ tryGetStringValue block_info.Values "name" "none"))).map fun ptrNodeNew =>
  -- Add outputs
  let n1 := match block_shader.GetFirstByName "outputs" with
    | some block_shader_outputs =>
      init.addOutputs ienv (block_shader_outputs.GetAllByName "output") 0 ptrNodeNew
    | none => ptrNodeNew
  if n1.m_output_definitions.length = 0 then
    -- Just use default outputs (1, named output)
    { n1 with m_output_definitions := n1.m_output_definitions ++ [{ name := "output", location := 0 }] }
  else n1

/-- Body of the loop of `init` over the directory entries: the library
after the entry, or the exception that ends `init`. -/
def init.processEntry (ienv : InitEnv) (lib : Map BaseNode) (entry : DirEntry) :
    Result (Map BaseNode) :=
  match entry.headNode with
  | none => .error Fault.exception
  | some headNode =>
    match headNode.GetFirstByName "info", headNode.GetFirstByName "shader" with
    | none, _ => .ok lib
    | some _, none => .ok lib
    | some block_info, some block_shader =>
      (init.buildNode ienv block_info block_shader).bind fun ptrNodeNew =>
      -- Create index listing.
      (deref (ienv.split entry.filename ".tcfn")[0]?).map fun key =>
        Map.insert lib (key, ptrNodeNew)

/-- The loop of `init` over the directory entries. -/
def init.loadNodes (ienv : InitEnv) : Map BaseNode → List DirEntry → Result (Map BaseNode)
  | lib, [] => .ok lib
  | lib, entry :: rest =>
    (init.processEntry ienv lib entry).bind fun lib1 => init.loadNodes ienv lib1 rest

/-- The bytes of an ASCII string. -/
def asciiBytes (s : String) : List Nat := s.toList.map Char.toNat

/-- Embeds `TARCF::init()`, as far as the node library is concerned; `entries` is
what iterating the `tarcfnode` directory yields (`none` when it cannot be
iterated). -/
def init (ienv : InitEnv) (entries : Option (List DirEntry)) : Result (Map BaseNode) :=
  let passthrough := ienv.compile "shaders/engine/quadbase.vs"
    "shaders/engine/tarcfnode/passthrough.fs" "tarcfn.passthrough"
  let distance := ienv.compile "shaders/engine/quadbase.vs"
    "shaders/engine/tarcfnode/distance.fs" "tarcfn.distance"
  -- Generative nodes (static custom handle nodes)
  (TextureNode.new passthrough (asciiBytes "textures/modulate.png")).bind fun texture =>
  let lib1 := Map.insert [] ("texture", texture)
  (Distance.new distance).bind fun dist =>
  let lib2 := Map.insert lib1 ("distance", dist)
  -- Load generic transformative nodes
  match entries with
  | none => .error Fault.exception
  | some es => init.loadNodes ienv lib2 es

/-! ## Specification-side definitions -/

/-- What `connect(src, dst, o, i)` makes of the instance `X` at address `a`:
`(dst, i)` is appended to output list `o` when `a` is the source, and input
slot `i` becomes `(src, o)` when `a` is the destination. -/
def connected (src dst o i : Nat) (a : Nat) (X : NodeInstance) : NodeInstance :=
  { X with
    m_con_outputs :=
      if a = src then
        X.m_con_outputs.set o (X.m_con_outputs.getD o [] ++ [Connection.mk (some dst) i])
      else X.m_con_outputs
    m_con_inputs :=
      if a = dst then X.m_con_inputs.set i (Connection.mk (some src) o) else X.m_con_inputs }

/-- The members of an instance that no `compute` writes: its connections,
its node-type key, its properties and its framebuffer names. -/
def NodeInstance.fixed (X : NodeInstance) :
    List Connection × List (List Connection) × String × Map prop × List Nat :=
  (X.m_con_inputs, X.m_con_outputs, X.m_nodeid, X.m_properties, X.m_gl_framebuffers)

/-- The input slots of the instance at an address (none when there is no
instance there). -/
def inputsAt (heap : List NodeInstance) (a : Nat) : List Connection :=
  match heap[a]? with
  | some X => X.m_con_inputs
  | none => []

/-- The dirty flag of the instance at an address (`false` when there is no
instance there). -/
def dirtyAt (heap : List NodeInstance) (a : Nat) : Bool :=
  match heap[a]? with
  | some X => X.m_isDirty
  | none => false

/-- The relation `Edge heap d s`: some input slot of the instance at `d` is connected to
the instance at `s` (`s` is a direct source of `d`). -/
def Edge (heap : List NodeInstance) (d s : Nat) : Prop :=
  ∃ c ∈ inputsAt heap d, c.ptrNode = some s

/-- The input connections contain no cycle: no instance is reached from
itself along one or more input connections. -/
def Acyclic (heap : List NodeInstance) : Prop :=
  ∀ a, ¬ Relation.TransGen (Edge heap) a a

/-- Every input connection leads from an instance to one of strictly
smaller rank; a checkable certificate of acyclicity. -/
def rankedBy (rank : Nat → Nat) (heap : List NodeInstance) : Bool :=
  (List.range heap.length).all fun d =>
    (inputsAt heap d).all fun c =>
      match c.ptrNode with
      | some s => decide (rank s < rank d)
      | none => true

/-- The node-type algorithm of the instance can run: its key is in the
library, and for a texture loader the `source` property holds a
NUL-terminated path. -/
def runnable (env : Env) (X : NodeInstance) : Bool :=
  match Map.find env.NODELIB X.m_nodeid with
  | none => false
  | some type =>
    match type.kind with
    | .textureNode =>
      match Map.find X.m_properties "source" with
      | some p =>
        match p.value with
        | some bytes => (strlen bytes).isSome
        | none => false
      | none => false
    | _ => true

/-- Every connection of the instance points at a live instance. -/
def inputsValid (n : Nat) (X : NodeInstance) : Bool :=
  X.m_con_inputs.all fun c =>
    match c.ptrNode with
    | some p => decide (p < n)
    | none => true

/-- No instance has a dangling source pointer, and the algorithm of every
instance can run. -/
def wellFormed (env : Env) (heap : List NodeInstance) : Bool :=
  heap.all fun X => runnable env X && inputsValid heap.length X

/-- The relation `Advance w w1 t`: from `w` to `w1` the algorithms of the instances `t`
were dispatched, in this order; these instances are clean in `w1`, every
other instance is as it was, and no instance changed in its fixed part. -/
structure Advance (w w1 : World) (t : List Nat) : Prop where
  fixed : w1.heap.map NodeInstance.fixed = w.heap.map NodeInstance.fixed
  log : w1.dispatched = w.dispatched ++ t
  clean : ∀ a ∈ t, dirtyAt w1.heap a = false
  others : ∀ a, a ∉ t → w1.heap[a]? = w.heap[a]?

/-- What the first loop of `compute` over the slots `cs` does from `w` to
`w1`, with `t` the dispatched instances: each of them is a source named in
`cs` or is reached from one, each was dirty in `w`, and every source named in
`cs` that was dirty in `w` is among them. -/
structure InputsSpec (w : World) (cs : List Connection) (w1 : World) (t : List Nat) : Prop where
  adv : Advance w w1 t
  reach : ∀ a ∈ t, ∃ c ∈ cs, ∃ p, c.ptrNode = some p ∧ Relation.ReflTransGen (Edge w.heap) p a
  wasDirty : ∀ a ∈ t, dirtyAt w.heap a = true
  sources : ∀ c ∈ cs, ∀ p, c.ptrNode = some p → dirtyAt w.heap p = true → p ∈ t
  nodup : Acyclic w.heap → t.Nodup

/-- What `compute` on the instance at `d` does from `w` to `w1`: the
algorithms of `t` and then of `d` are dispatched; each instance of `t` is
reached from `d` along input connections and was dirty in `w`; every direct
source of `d` that was dirty in `w` is in `t`. -/
structure ComputeSpec (w : World) (d : Nat) (w1 : World) (t : List Nat) : Prop where
  adv : Advance w w1 (t ++ [d])
  reach : ∀ a ∈ t, Relation.TransGen (Edge w.heap) d a
  wasDirty : ∀ a ∈ t, dirtyAt w.heap a = true
  sources : ∀ p, Edge w.heap d p → dirtyAt w.heap p = true → p ∈ t
  nodup : Acyclic w.heap → (t ++ [d]).Nodup

/-- The instance has as many input slots as its node type has input pins
and as many output lists as its node type has output pins. -/
def pinsMatch (env : Env) (X : NodeInstance) : Prop :=
  ∃ type, Map.find env.NODELIB X.m_nodeid = some type ∧
    X.m_con_inputs.length = type.m_input_definitions.length ∧
    X.m_con_outputs.length = type.m_output_definitions.length

/-- Every live instance satisfies `pinsMatch`. -/
def PinInvariant (env : Env) (w : World) : Prop :=
  ∀ X ∈ w.heap, pinsMatch env X

/-- The input pins the `BaseNode` constructor makes of the uniforms `us`, the
first of which has index `i`: one pin per sampler-2D uniform, named after it
and located at its index. -/
def samplerPins : Nat → List (String × Nat) → List Pin
  | _, [] => []
  | i, u :: us =>
    if u.2 = GL_SAMPLER_2D then { name := u.1, location := i } :: samplerPins (i + 1) us
    else samplerPins (i + 1) us

/-- One graph operation a caller issues on live instances. -/
inductive Op where
  | connect (src dst conSrcID conDstID : Nat)
  | setProperty (self : Nat) (propname : String) (ptr : Source)
  | compute (depth self : Nat)

/-- The state after one operation. -/
def Op.apply (env : Env) (w : World) : Op → Result World
  | .connect src dst conSrcID conDstID => NodeInstance.connect w src dst conSrcID conDstID
  | .setProperty self propname ptr => NodeInstance.setProperty w self propname ptr
  | .compute depth self => NodeInstance.compute env depth w self

/-- The state after a sequence of operations, issued from left to right. -/
def runOps (env : Env) : List Op → World → Result World
  | [], w => .ok w
  | op :: rest, w => (op.apply env w).bind fun w1 => runOps env rest w1

/-- The relation `DirtyEdge heap d s`: `s` is a direct source of `d` and is dirty, so
that `compute` on `d` calls `compute` on `s`. -/
def DirtyEdge (heap : List NodeInstance) (d s : Nat) : Prop :=
  Edge heap d s ∧ dirtyAt heap s = true

/-- The sources of the occupied input slots, in slot order. -/
def occupied (cs : List Connection) : List Nat :=
  cs.filterMap fun c => c.ptrNode

/-- Texture 0 of the instance at an address (0 when there is no instance
there). -/
def texture0 (heap : List NodeInstance) (p : Nat) : Nat :=
  match heap[p]? with
  | some X => X.m_gl_texture_ids.getD 0 0
  | none => 0

/-- The calls that bind texture 0 of the sources `ps` to consecutive
texture units, the first of them to unit `k`. -/
def bindCalls (heap : List NodeInstance) : Nat → List Nat → List GLCall
  | _, [] => []
  | k, p :: ps => .activeTexture k :: .bindTexture (texture0 heap p) :: bindCalls heap (k + 1) ps

/-- Whether a call is a `glBindTexture`. -/
def GLCall.isBindTexture : GLCall → Bool
  | .bindTexture _ => true
  | _ => false

/-! ## Sample data

A small library and a few instances built with the operations above, on
which the theorems are instantiated. -/

/-- A shader compiler for the samples: the distance shader reports a float
and a sampler, the passthrough shader nothing, every other shader two
samplers around a vector. -/
def sampleCompile (_v f name : String) : Shader :=
  if f = "shaders/engine/tarcfnode/distance.fs" then
    { symbolicName := name, programID := 2,
      uniforms := [("iter", GL_FLOAT), ("tex_in", GL_SAMPLER_2D)] }
  else if f = "shaders/engine/tarcfnode/passthrough.fs" then
    { symbolicName := name, programID := 1, uniforms := [] }
  else
    { symbolicName := name, programID := 3,
      uniforms := [("tex_a", GL_SAMPLER_2D), ("gain", GL_FLOAT_VEC2), ("tex_b", GL_SAMPLER_2D)] }

def sampleInitEnv : InitEnv :=
  { compile := sampleCompile,
    split := fun s _ => [String.mk (s.toList.takeWhile fun c => c ≠ '.')],
    incrementFirst := false }

/-- A descriptor with an `info` and a `shader` block and no `outputs`. -/
def blendDescriptor : DataBlock :=
  .mk "" [] [.mk "info" [("name", "blend")] [], .mk "shader" [("fragment", "shaders/blend.fs")] []]

/-- A descriptor without a `shader` block. -/
def brokenDescriptor : DataBlock :=
  .mk "" [] [.mk "info" [("name", "broken")] []]

def sampleEntries : List DirEntry :=
  [{ filename := "broken.tcfn", headNode := some brokenDescriptor },
   { filename := "blend.tcfn", headNode := some blendDescriptor }]

/-- The library `init` builds from the sample directory. -/
def sampleLib : Map BaseNode :=
  match init sampleInitEnv (some sampleEntries) with
  | .ok lib => lib
  | .error _ => []

def sampleEnv : Env := { NODELIB := sampleLib, stbi_load := fun _ => some (64, 32) }

/-- A fresh OpenGL context and no instance. -/
def emptyWorld : World :=
  { heap := [],
    gl := { nextTexture := 1, nextFramebuffer := 1, framebuffer := 0, activeUnit := 0,
            units := [], attachments := [], program := 0, draws := [], calls := [] },
    dispatched := [] }

/-- The state an operation leaves, or the state before it when it faults. -/
def orElse (r : Result World) (w : World) : World :=
  match r with
  | .ok w1 => w1
  | .error _ => w

/-- Instantiates the listed node types in order. -/
def build : List String → World → World
  | [], w => w
  | id :: rest, w =>
    match NodeInstance.new sampleEnv w 16 16 id with
    | .ok r => build rest r.1
    | .error _ => w

/-- Three instances: a texture loader at 0, a blend node at 1, a distance
node at 2, all unconnected and dirty. -/
def sampleWorld : World := build ["texture", "blend", "distance"] emptyWorld

/-- The instance at an address, or a blank one. -/
def instAt (w : World) (a : Nat) : NodeInstance :=
  match w.heap[a]? with
  | some X => X
  | none =>
    { m_con_outputs := [], m_con_inputs := [], m_gl_texture_ids := [], m_gl_texture_w := 0,
      m_gl_texture_h := 0, m_gl_framebuffers := [], m_nodeid := "", m_properties := [] }

/-- The blend node computed once on its own (it is clean afterwards), and
then the dirty texture loader connected to its input 0. -/
def cleanBlendWorld : World :=
  orElse (NodeInstance.connect (orElse (NodeInstance.compute sampleEnv 1 sampleWorld 1) sampleWorld)
    0 1 0 0) sampleWorld

/-- The sample instances with the texture loader feeding input 0 of the
blend node, both dirty. -/
def chainWorld : World := orElse (NodeInstance.connect sampleWorld 0 1 0 0) sampleWorld

/-- The chain after `compute` on the blend node: both instances clean. -/
def computedChainWorld : World :=
  orElse (NodeInstance.compute sampleEnv 2 chainWorld 1) chainWorld

/-- The distance node type of the sample library. -/
def sampleDistanceType : BaseNode :=
  match Map.find sampleLib "distance" with
  | some t => t
  | none => BaseNode.mk NodeKind.node (Shader.mk "" 0 []) [] [] []

/-- The samples wired texture loader -> blend node, the blend node
computed, then the distance node wired to the second input of the blend node
and the `source` path of the texture loader replaced. -/
def sampleOps : List Op :=
  [.connect 0 1 0 0, .compute 2 1, .connect 2 1 0 1,
   .setProperty 0 "source" (Source.mk [97, 0] false)]

/-- The samples after `compute` on the unconnected distance node, which is
then the only clean instance. -/
def distanceDoneWorld : World :=
  orElse (NodeInstance.compute sampleEnv 1 sampleWorld 2) sampleWorld

/-- The samples with the blend node and the distance node feeding each
other, all instances dirty. -/
def cycleWorld : World :=
  orElse (runOps sampleEnv [.connect 2 1 0 0, .connect 1 2 0 0] sampleWorld) sampleWorld

/-- The same cycle, wired after the distance node was computed: the
distance node is clean, the blend node dirty. -/
def haltingCycleWorld : World :=
  orElse (runOps sampleEnv [.compute 1 2, .connect 2 1 0 0, .connect 1 2 0 0] sampleWorld)
    sampleWorld

/-- The samples with the distance node wired to the second input of the
blend node, whose first input stays unconnected. -/
def gapWorld : World := orElse (NodeInstance.connect sampleWorld 2 1 0 1) sampleWorld

/-- The samples with the texture loader feeding both inputs of the blend
node and the blend node feeding the distance node. -/
def diamondWorld : World :=
  orElse (runOps sampleEnv [.connect 0 1 0 0, .connect 0 1 0 1, .connect 1 2 0 0] sampleWorld)
    sampleWorld

/-! # Theorems -/

/-! ## Basic facts -/

theorem deref_some {α : Type} (a : α) : deref (some a) = .ok a := rfl

theorem deref_eq_ok {α : Type} {o : Option α} {a : α} (h : deref o = .ok a) : o = some a := by
  cases o with
  | none => simp [deref] at h
  | some b => simp [deref] at h; rw [h]

theorem lt_length_of_getElem? {α : Type} {l : List α} {a : Nat} {x : α}
    (h : l[a]? = some x) : a < l.length :=
  (List.getElem?_eq_some_iff.1 h).1

/-! ## `connect` -/

/-- An in-range `connect` returns, leaves the OpenGL state and the dispatch
log alone, and turns every instance `X` at address `a` into
`connected src dst o i a X`. -/
theorem connect_eq (w : World) (src dst o i : Nat) (S D : NodeInstance)
    (hS : w.heap[src]? = some S) (hD : w.heap[dst]? = some D)
    (ho : o < S.m_con_outputs.length) (hi : i < D.m_con_inputs.length) :
    ∃ w1, NodeInstance.connect w src dst o i = .ok w1 ∧ w1.gl = w.gl ∧
      w1.dispatched = w.dispatched ∧ w1.heap.length = w.heap.length ∧
      ∀ a X, w.heap[a]? = some X → w1.heap[a]? = some (connected src dst o i a X) := by
  have hsl : src < w.heap.length := lt_length_of_getElem? hS
  have hdl : dst < w.heap.length := lt_length_of_getElem? hD
  have hoo : S.m_con_outputs[o]? = some (S.m_con_outputs.getD o []) := by
    simp [List.getD, List.getElem?_eq_getElem ho]
  unfold NodeInstance.connect
  by_cases hsd : src = dst
  · subst hsd
    have hSD : S = D := by rw [hS] at hD; exact Option.some.inj hD
    subst hSD
    simp only [hS, deref_some, Except.bind, bind, hoo, List.getElem?_set_self hsl, hi, if_true,
      List.length_set, List.set_set]
    refine ⟨_, rfl, rfl, rfl, by simp, ?_⟩
    intro a X ha
    by_cases has : a = src
    · subst has
      rw [hS] at ha; cases ha
      simp [connected, hsl]
    · simp [connected, has, List.getElem?_set_ne (Ne.symm has), ha]
  · have hD1 : ∀ x : NodeInstance, (w.heap.set src x)[dst]? = some D := by
      intro x; rw [List.getElem?_set_ne hsd]; exact hD
    simp only [hS, deref_some, Except.bind, bind, hoo, hD1, hi, if_true]
    refine ⟨_, rfl, rfl, rfl, by simp, ?_⟩
    intro a X ha
    by_cases had : a = dst
    · subst had
      rw [hD] at ha; cases ha
      have : ¬ a = src := fun h => hsd h.symm
      simp [connected, this, hdl]
    · by_cases has : a = src
      · subst has
        rw [hS] at ha; cases ha
        simp [connected, had, List.getElem?_set_ne (Ne.symm had), hsl]
      · simp [connected, had, has, List.getElem?_set_ne (Ne.symm had),
          List.getElem?_set_ne (Ne.symm has), ha]

theorem fixed_getElem? {h h1 : List NodeInstance}
    (hf : h1.map NodeInstance.fixed = h.map NodeInstance.fixed) (a : Nat) :
    (h1[a]?).map NodeInstance.fixed = (h[a]?).map NodeInstance.fixed := by
  rw [← List.getElem?_map, ← List.getElem?_map, hf]

theorem fixed_length {h h1 : List NodeInstance}
    (hf : h1.map NodeInstance.fixed = h.map NodeInstance.fixed) : h1.length = h.length := by
  have := congrArg List.length hf
  simpa using this

theorem fixed_lookup {h h1 : List NodeInstance}
    (hf : h1.map NodeInstance.fixed = h.map NodeInstance.fixed) {a : Nat} {X : NodeInstance}
    (hX : h[a]? = some X) : ∃ X1, h1[a]? = some X1 ∧ X1.fixed = X.fixed := by
  have := fixed_getElem? hf a
  rw [hX] at this
  cases h1a : h1[a]? with
  | none => rw [h1a] at this; simp at this
  | some X1 =>
    rw [h1a] at this
    exact ⟨X1, rfl, by simpa using this⟩

theorem inputsAt_congr {h h1 : List NodeInstance}
    (hf : h1.map NodeInstance.fixed = h.map NodeInstance.fixed) (a : Nat) :
    inputsAt h1 a = inputsAt h a := by
  have := fixed_getElem? hf a
  unfold inputsAt
  cases h1a : h1[a]? with
  | none =>
    cases ha : h[a]? with
    | none => rfl
    | some X => rw [h1a, ha] at this; simp at this
  | some X1 =>
    cases ha : h[a]? with
    | none => rw [h1a, ha] at this; simp at this
    | some X =>
      rw [h1a, ha] at this
      simp only [Option.map_some', Option.some.injEq, NodeInstance.fixed, Prod.mk.injEq] at this
      exact this.1

theorem edge_congr {h h1 : List NodeInstance}
    (hf : h1.map NodeInstance.fixed = h.map NodeInstance.fixed) : Edge h1 = Edge h := by
  funext d s
  simp only [Edge, inputsAt_congr hf]

theorem map_fixed_set {h : List NodeInstance} {a : Nat} {X Y : NodeInstance}
    (hX : h[a]? = some X) (hY : Y.fixed = X.fixed) :
    (h.set a Y).map NodeInstance.fixed = h.map NodeInstance.fixed := by
  rw [List.map_set, hY]
  apply List.ext_getElem?
  intro i
  by_cases hi : a = i
  · subst hi
    have hl : a < (h.map NodeInstance.fixed).length := by
      simpa using lt_length_of_getElem? hX
    rw [List.getElem?_set_self hl, List.getElem?_map, hX]; rfl
  · rw [List.getElem?_set_ne hi]

/-! ## The node-type algorithms -/

theorem TextureNode.load_fixed {env : Env} {X : NodeInstance} {g : GLState}
    {r : NodeInstance × GLState} (h : TextureNode.v_gen_tex_memory env X g = .ok r) :
    r.1.fixed = X.fixed ∧ r.1.m_isDirty = X.m_isDirty := by
  unfold TextureNode.v_gen_tex_memory at h
  simp only [] at h
  cases hp : Map.find X.m_properties "source" with
  | none => simp [hp, deref, Except.bind, bind] at h
  | some p =>
    cases hv : p.value with
    | none => simp [hp, hv, deref, Except.bind, bind] at h
    | some bytes =>
      cases hn : strlen bytes with
      | none => simp [hp, hv, hn, deref, Except.bind, bind, Except.map, Functor.map] at h
      | some n =>
        simp only [hp, hv, hn, deref, Except.bind, bind, Except.map, Functor.map,
          Except.ok.injEq] at h
        subst h
        cases env.stbi_load (List.take n bytes) <;> simp [NodeInstance.fixed]

theorem BaseNode.compute_fixed {env : Env} {type : BaseNode} {X : NodeInstance} {g : GLState}
    {r : NodeInstance × GLState} (h : type.compute env X g = .ok r) :
    r.1.fixed = X.fixed ∧ r.1.m_isDirty = X.m_isDirty := by
  unfold BaseNode.compute at h
  cases hk : type.kind with
  | node =>
    simp only [hk, Except.ok.injEq] at h
    subst h; exact ⟨rfl, rfl⟩
  | textureNode =>
    simp only [hk, TextureNode.compute] at h
    exact TextureNode.load_fixed h
  | distance =>
    simp only [hk] at h
    cases hd : Distance.compute env X g with
    | error e => simp [hd, Except.map, Functor.map] at h
    | ok g1 =>
      simp only [hd, Except.map, Functor.map, Except.ok.injEq] at h
      subst h; exact ⟨rfl, rfl⟩

theorem BaseNode.compute_ok {env : Env} {type : BaseNode} {X : NodeInstance}
    (hr : runnable env X = true) (ht : Map.find env.NODELIB X.m_nodeid = some type)
    (g : GLState) : ∃ r, type.compute env X g = .ok r := by
  unfold runnable at hr
  rw [ht] at hr
  unfold BaseNode.compute
  cases hk : type.kind with
  | node => exact ⟨_, rfl⟩
  | textureNode =>
    simp only [hk] at hr
    cases hp : Map.find X.m_properties "source" with
    | none => simp [hp] at hr
    | some p =>
      cases hv : p.value with
      | none => simp [hp, hv] at hr
      | some bytes =>
        cases hn : strlen bytes with
        | none => simp [hp, hv, hn] at hr
        | some n =>
          simp only [TextureNode.compute, TextureNode.v_gen_tex_memory, hp, hv, hn, deref,
            Except.bind, bind, Except.map, Functor.map]
          exact ⟨_, rfl⟩
  | distance =>
    simp only [Distance.compute, ht, deref, Except.map, Functor.map]
    exact ⟨_, rfl⟩

/-! ## Progress of a computation -/

theorem Advance.refl (w : World) : Advance w w [] :=
  ⟨rfl, by simp, by simp, fun _ _ => rfl⟩

theorem dirtyAt_congr {h h1 : List NodeInstance} {a : Nat} (e : h1[a]? = h[a]?) :
    dirtyAt h1 a = dirtyAt h a := by
  unfold dirtyAt; rw [e]

theorem Advance.trans {w w1 w2 : World} {t1 t2 : List Nat}
    (h1 : Advance w w1 t1) (h2 : Advance w1 w2 t2) : Advance w w2 (t1 ++ t2) := by
  refine ⟨h2.fixed.trans h1.fixed, ?_, ?_, ?_⟩
  · rw [h2.log, h1.log, List.append_assoc]
  · intro a ha
    by_cases h : a ∈ t2
    · exact h2.clean a h
    · rw [dirtyAt_congr (h2.others a h)]
      rcases List.mem_append.1 ha with ha | ha
      · exact h1.clean a ha
      · exact absurd ha h
  · intro a ha
    have ha1 : a ∉ t1 := fun h => ha (List.mem_append_left _ h)
    have ha2 : a ∉ t2 := fun h => ha (List.mem_append_right _ h)
    rw [h2.others a ha2, h1.others a ha1]

/-- A clean instance stays clean. -/
theorem Advance.mono {w w1 : World} {t : List Nat} (h : Advance w w1 t) {a : Nat}
    (hc : dirtyAt w.heap a = false) : dirtyAt w1.heap a = false := by
  by_cases ha : a ∈ t
  · exact h.clean a ha
  · rw [dirtyAt_congr (h.others a ha)]; exact hc

/-- An instance that was dirty and is clean was dispatched. -/
theorem Advance.changed {w w1 : World} {t : List Nat} (h : Advance w w1 t) {a : Nat}
    (hd : dirtyAt w.heap a = true) (hc : dirtyAt w1.heap a = false) : a ∈ t := by
  by_contra ha
  rw [dirtyAt_congr (h.others a ha), hd] at hc
  exact absurd hc (by decide)

theorem edge_of_mem {heap : List NodeInstance} {d p : Nat} {X : NodeInstance} {c : Connection}
    (hX : heap[d]? = some X) (hc : c ∈ X.m_con_inputs) (hp : c.ptrNode = some p) :
    Edge heap d p := by
  refine ⟨c, ?_, hp⟩
  simp [inputsAt, hX, hc]

theorem computeInputs_spec (recurse : World → Nat → Result World)
    (hrec : ∀ w p w1, recurse w p = .ok w1 → dirtyAt w.heap p = true → ∃ t, ComputeSpec w p w1 t) :
    ∀ (cs : List Connection) (w w1 : World),
      NodeInstance.computeInputs recurse cs w = .ok w1 → ∃ t, InputsSpec w cs w1 t := by
  intro cs
  induction cs with
  | nil =>
    intro w w1 h
    simp only [NodeInstance.computeInputs, Except.ok.injEq] at h
    subst h
    exact ⟨[], Advance.refl w, by simp, by simp, by simp, fun _ => List.nodup_nil⟩
  | cons c cs ih =>
    intro w w1 h
    unfold NodeInstance.computeInputs at h
    cases hp : c.ptrNode with
    | none =>
      simp only [hp] at h
      obtain ⟨t, ht⟩ := ih w w1 h
      refine ⟨t, ht.adv, ?_, ht.wasDirty, ?_, ht.nodup⟩
      · intro a ha
        obtain ⟨c1, hc1, p, hp1, hr⟩ := ht.reach a ha
        exact ⟨c1, List.mem_cons_of_mem _ hc1, p, hp1, hr⟩
      · intro c1 hc1 p hp1 hd
        rcases List.mem_cons.1 hc1 with e | e
        · subst e; rw [hp] at hp1; cases hp1
        · exact ht.sources c1 e p hp1 hd
    | some p =>
      simp only [hp] at h
      cases hsrc : w.heap[p]? with
      | none => simp [hsrc, deref, Except.bind, bind] at h
      | some src =>
        simp only [hsrc, deref, Except.bind, bind] at h
        by_cases hdirty : src.m_isDirty = true
        · simp only [hdirty, if_true] at h
          cases hr : recurse w p with
          | error e => simp [hr] at h
          | ok w2 =>
            simp only [hr] at h
            have hpd : dirtyAt w.heap p = true := by simp [dirtyAt, hsrc, hdirty]
            obtain ⟨t1, ht1⟩ := hrec w p w2 hr hpd
            obtain ⟨t2, ht2⟩ := ih w2 w1 h
            have he : Edge w2.heap = Edge w.heap := edge_congr ht1.adv.fixed
            refine ⟨(t1 ++ [p]) ++ t2, ht1.adv.trans ht2.adv, ?_, ?_, ?_, ?_⟩
            · intro a ha
              rcases List.mem_append.1 ha with ha | ha
              · refine ⟨c, List.mem_cons_self _ _, p, hp, ?_⟩
                rcases List.mem_append.1 ha with ha | ha
                · exact (ht1.reach a ha).to_reflTransGen
                · rw [List.mem_singleton.1 ha]
              · obtain ⟨c1, hc1, q, hq, hr1⟩ := ht2.reach a ha
                rw [he] at hr1
                exact ⟨c1, List.mem_cons_of_mem _ hc1, q, hq, hr1⟩
            · intro a ha
              rcases List.mem_append.1 ha with ha | ha
              · rcases List.mem_append.1 ha with ha | ha
                · exact ht1.wasDirty a ha
                · rw [List.mem_singleton.1 ha]; exact hpd
              · have := ht2.wasDirty a ha
                by_contra hn
                have hn1 : dirtyAt w.heap a = false := by simpa using hn
                rw [ht1.adv.mono hn1] at this
                exact absurd this (by decide)
            · intro c1 hc1 q hq hd
              rcases List.mem_cons.1 hc1 with e | e
              · subst e
                rw [hp] at hq; cases hq
                exact List.mem_append_left _ (List.mem_append_right _ (List.mem_singleton_self _))
              · cases hd2 : dirtyAt w2.heap q with
                | true => exact List.mem_append_right _ (ht2.sources c1 e q hq hd2)
                | false => exact List.mem_append_left _ (ht1.adv.changed hd hd2)
            · intro hac
              have hac2 : Acyclic w2.heap := by
                unfold Acyclic; rw [he]; exact hac
              refine List.nodup_append.2 ⟨ht1.nodup hac, ht2.nodup hac2, ?_⟩
              intro a ha1 ha2
              have h1 := ht1.adv.clean a ha1
              rw [ht2.wasDirty a ha2] at h1
              exact absurd h1 (by decide)
        · simp only [hdirty] at h
          obtain ⟨t, ht⟩ := ih w w1 h
          refine ⟨t, ht.adv, ?_, ht.wasDirty, ?_, ht.nodup⟩
          · intro a ha
            obtain ⟨c1, hc1, q, hq, hr⟩ := ht.reach a ha
            exact ⟨c1, List.mem_cons_of_mem _ hc1, q, hq, hr⟩
          · intro c1 hc1 q hq hd
            rcases List.mem_cons.1 hc1 with e | e
            · subst e
              rw [hp] at hq; cases hq
              simp [dirtyAt, hsrc, hdirty] at hd
            · exact ht.sources c1 e q hq hd

theorem dirtyAt_set_self {heap : List NodeInstance} {a : Nat} (X : NodeInstance)
    (ha : a < heap.length) : dirtyAt (heap.set a X) a = X.m_isDirty := by
  simp [dirtyAt, List.getElem?_set_self ha]

/-- Partial correctness of `compute`: whenever it returns, it has advanced
the state as `ComputeSpec` says. -/
theorem compute_spec (env : Env) :
    ∀ (depth : Nat) (w : World) (self : Nat) (w1 : World),
      NodeInstance.compute env depth w self = .ok w1 → ∃ t, ComputeSpec w self w1 t := by
  intro depth
  induction depth with
  | zero => intro w self w1 h; simp [NodeInstance.compute] at h
  | succ depth ih =>
    intro w self w1 h
    unfold NodeInstance.compute at h
    cases h0 : w.heap[self]? with
    | none => simp [h0, deref, Except.bind, bind] at h
    | some this0 =>
      simp only [h0, deref, Except.bind, bind] at h
      cases hin : NodeInstance.computeInputs (NodeInstance.compute env depth)
          this0.m_con_inputs w with
      | error e => simp [hin] at h
      | ok w2 =>
        simp only [hin] at h
        obtain ⟨t, ht⟩ := computeInputs_spec (NodeInstance.compute env depth)
          (fun w p w1 hr _ => ih w p w1 hr) _ _ _ hin
        cases h1 : w2.heap[self]? with
        | none => simp [h1] at h
        | some this1 =>
          simp only [h1] at h
          cases hpull : NodeInstance.pullInputs w2.heap this1.m_con_inputs 0 w2.gl with
          | error e => simp [hpull] at h
          | ok g1 =>
            simp only [hpull] at h
            cases hty : Map.find env.NODELIB this1.m_nodeid with
            | none => simp [hty] at h
            | some type =>
              simp only [hty] at h
              cases halg : type.compute env this1 (glActiveTexture g1 0) with
              | error e => simp [halg, Except.map, Functor.map] at h
              | ok r =>
                simp only [halg, Except.map, Functor.map, Except.ok.injEq] at h
                subst h
                have hfix := BaseNode.compute_fixed halg
                have hlen : self < w2.heap.length := lt_length_of_getElem? h1
                have hadv : Advance w2
                    { heap := w2.heap.set self { r.1 with m_isDirty := false }, gl := r.2,
                      dispatched := w2.dispatched ++ [self] } [self] := by
                  refine ⟨map_fixed_set h1 ?_, rfl, ?_, ?_⟩
                  · rw [← hfix.1]; rfl
                  · intro a ha
                    rw [List.mem_singleton.1 ha]
                    exact dirtyAt_set_self _ hlen
                  · intro a ha
                    have : self ≠ a := fun e => ha (by simp [e])
                    exact List.getElem?_set_ne this
                have hreach : ∀ a ∈ t, Relation.TransGen (Edge w.heap) self a := by
                  intro a ha
                  obtain ⟨c, hc, p, hp, hr⟩ := ht.reach a ha
                  exact Relation.TransGen.head' (edge_of_mem h0 hc hp) hr
                refine ⟨t, ⟨ht.adv.trans hadv, hreach, ht.wasDirty, ?_, ?_⟩⟩
                · intro p hp hd
                  obtain ⟨c, hc, hcp⟩ := hp
                  simp only [inputsAt, h0] at hc
                  exact ht.sources c hc p hcp hd
                · intro hac
                  refine List.nodup_append.2 ⟨ht.nodup hac, List.nodup_singleton _, ?_⟩
                  intro a ha1 ha2
                  rw [List.mem_singleton.1 ha2] at ha1
                  exact hac self (hreach self ha1)

/-! ## Termination of `compute` on acyclic graphs -/

theorem runnable_congr (env : Env) {X Y : NodeInstance} (h : Y.fixed = X.fixed) :
    runnable env Y = runnable env X := by
  simp only [NodeInstance.fixed, Prod.mk.injEq] at h
  obtain ⟨-, -, hid, hprops, -⟩ := h
  simp only [runnable, hid, hprops]

theorem inputsValid_congr (n : Nat) {X Y : NodeInstance} (h : Y.fixed = X.fixed) :
    inputsValid n Y = inputsValid n X := by
  simp only [NodeInstance.fixed, Prod.mk.injEq] at h
  simp only [inputsValid, h.1]

theorem wellFormed_at {env : Env} {heap : List NodeInstance} (hwf : wellFormed env heap = true)
    {a : Nat} {X : NodeInstance} (hX : heap[a]? = some X) :
    runnable env X = true ∧ inputsValid heap.length X = true := by
  unfold wellFormed at hwf
  rw [List.all_eq_true] at hwf
  have := hwf X (List.getElem?_mem hX)
  simpa using this

theorem inputsValid_mem {n : Nat} {X : NodeInstance} (h : inputsValid n X = true)
    {c : Connection} (hc : c ∈ X.m_con_inputs) {p : Nat} (hp : c.ptrNode = some p) : p < n := by
  unfold inputsValid at h
  rw [List.all_eq_true] at h
  have := h c hc
  simpa [hp] using this

theorem pullInputs_ok (heap : List NodeInstance) :
    ∀ (cs : List Connection) (k : Nat) (g : GLState),
      (∀ c ∈ cs, ∀ p, c.ptrNode = some p → p < heap.length) →
      ∃ g1, NodeInstance.pullInputs heap cs k g = .ok g1 := by
  intro cs
  induction cs with
  | nil => intro k g _; exact ⟨g, rfl⟩
  | cons c cs ih =>
    intro k g hv
    unfold NodeInstance.pullInputs
    cases hp : c.ptrNode with
    | none =>
      simp only []
      exact ih k g fun c1 hc1 => hv c1 (List.mem_cons_of_mem _ hc1)
    | some p =>
      have hlt : p < heap.length := hv c (List.mem_cons_self _ _) p hp
      simp only [List.getElem?_eq_getElem hlt, deref, Except.bind, bind]
      exact ih _ _ fun c1 hc1 => hv c1 (List.mem_cons_of_mem _ hc1)

theorem computeInputs_ok (recurse : World → Nat → Result World) (w0 : World)
    (hfix : ∀ w p w1, recurse w p = .ok w1 →
      w1.heap.map NodeInstance.fixed = w.heap.map NodeInstance.fixed) :
    ∀ (cs : List Connection),
      (∀ c ∈ cs, ∀ p, c.ptrNode = some p → p < w0.heap.length ∧
        ∀ w, w.heap.map NodeInstance.fixed = w0.heap.map NodeInstance.fixed →
          ∃ w1, recurse w p = .ok w1) →
      ∀ w, w.heap.map NodeInstance.fixed = w0.heap.map NodeInstance.fixed →
        ∃ w1, NodeInstance.computeInputs recurse cs w = .ok w1 ∧
          w1.heap.map NodeInstance.fixed = w0.heap.map NodeInstance.fixed := by
  intro cs
  induction cs with
  | nil => intro _ w hw; exact ⟨w, rfl, hw⟩
  | cons c cs ih =>
    intro hv w hw
    have hv1 := fun c1 hc1 => hv c1 (List.mem_cons_of_mem _ hc1)
    unfold NodeInstance.computeInputs
    cases hp : c.ptrNode with
    | none => simp only []; exact ih hv1 w hw
    | some p =>
      obtain ⟨hlt, hrec⟩ := hv c (List.mem_cons_self _ _) p hp
      have hlt1 : p < w.heap.length := by rw [fixed_length hw]; exact hlt
      simp only [List.getElem?_eq_getElem hlt1, deref, Except.bind, bind]
      split
      · obtain ⟨w2, hw2⟩ := hrec w hw
        rw [hw2]
        exact ih hv1 w2 ((hfix w p w2 hw2).trans hw)
      · exact ih hv1 w hw

theorem acyclic_wf (heap : List NodeInstance) (hac : Acyclic heap) :
    WellFounded fun (s d : Fin heap.length) => Relation.TransGen (Edge heap) d.1 s.1 := by
  haveI : IsTrans (Fin heap.length) fun s d => Relation.TransGen (Edge heap) d.1 s.1 :=
    ⟨fun _ _ _ hab hbc => hbc.trans hab⟩
  haveI : IsIrrefl (Fin heap.length) fun s d => Relation.TransGen (Edge heap) d.1 s.1 :=
    ⟨fun a h => hac a.1 h⟩
  exact Finite.wellFounded_of_trans_of_irrefl _

/-- A bound that serves every member of a list serves them all at once. -/
theorem uniform_bound {α : Type} (P : α → Nat → Prop)
    (hmono : ∀ x m n, m ≤ n → P x m → P x n) :
    ∀ (l : List α), (∀ x ∈ l, ∃ n, P x n) → ∃ n, ∀ x ∈ l, P x n := by
  intro l
  induction l with
  | nil => intro _; exact ⟨0, by simp⟩
  | cons x l ih =>
    intro h
    obtain ⟨n1, h1⟩ := h x (List.mem_cons_self _ _)
    obtain ⟨n2, h2⟩ := ih fun y hy => h y (List.mem_cons_of_mem _ hy)
    refine ⟨max n1 n2, ?_⟩
    intro y hy
    rcases List.mem_cons.1 hy with e | e
    · subst e; exact hmono _ _ _ (le_max_left _ _) h1
    · exact hmono _ _ _ (le_max_right _ _) (h2 y e)

/-- Total correctness of `compute`, termination part: in a well-formed
state without a cycle, a recursion depth exists from which `compute` on a
live instance returns, whatever the dirty flags and textures are. -/
theorem compute_returns (env : Env) (w0 : World) (hwf : wellFormed env w0.heap = true)
    (hac : Acyclic w0.heap) (d : Nat) (hd : d < w0.heap.length) :
    ∃ N, ∀ depth, N ≤ depth → ∀ w,
      w.heap.map NodeInstance.fixed = w0.heap.map NodeInstance.fixed →
      ∃ w1, NodeInstance.compute env depth w d = .ok w1 := by
  have key : ∀ d : Fin w0.heap.length, ∃ N, ∀ depth, N ≤ depth → ∀ w,
      w.heap.map NodeInstance.fixed = w0.heap.map NodeInstance.fixed →
      ∃ w1, NodeInstance.compute env depth w d.1 = .ok w1 := by
    intro d
    induction d using (acyclic_wf w0.heap hac).induction with
    | _ d ih =>
      have hX0 : w0.heap[d.1]? = some (w0.heap[d.1]) := List.getElem?_eq_getElem d.2
      obtain ⟨-, hval0⟩ := wellFormed_at hwf hX0
      -- one bound for all the sources
      have hb : ∃ M, ∀ c ∈ (w0.heap[d.1]).m_con_inputs, ∀ p, c.ptrNode = some p →
          ∀ depth, M ≤ depth → ∀ w,
            w.heap.map NodeInstance.fixed = w0.heap.map NodeInstance.fixed →
            ∃ w1, NodeInstance.compute env depth w p = .ok w1 := by
        apply uniform_bound (fun (c : Connection) (M : Nat) => ∀ p, c.ptrNode = some p →
          ∀ depth, M ≤ depth → ∀ w,
            w.heap.map NodeInstance.fixed = w0.heap.map NodeInstance.fixed →
            ∃ w1, NodeInstance.compute env depth w p = .ok w1)
        · intro c m n hmn h p hp depth hdep
          exact h p hp depth (le_trans hmn hdep)
        · intro c hc
          cases hp : c.ptrNode with
          | none => exact ⟨0, fun p hp1 => by cases hp1⟩
          | some p =>
            have hlt : p < w0.heap.length := inputsValid_mem hval0 hc hp
            obtain ⟨N, hN⟩ := ih ⟨p, hlt⟩
              (Relation.TransGen.single (edge_of_mem hX0 hc hp))
            exact ⟨N, fun q hq => by cases hq; exact hN⟩
      obtain ⟨M, hM⟩ := hb
      refine ⟨M + 1, ?_⟩
      intro depth hdep w hw
      obtain ⟨k, rfl⟩ : ∃ k, depth = k + 1 := ⟨depth - 1, by omega⟩
      have hk : M ≤ k := by omega
      obtain ⟨this0, h0, hf0⟩ := fixed_lookup hw hX0
      have hin0 : this0.m_con_inputs = (w0.heap[d.1]).m_con_inputs := by
        simp only [NodeInstance.fixed, Prod.mk.injEq] at hf0; exact hf0.1
      obtain ⟨w2, hw2, hfix2⟩ := computeInputs_ok (NodeInstance.compute env k) w0
        (fun w p w1 h => by
          obtain ⟨t, ht⟩ := compute_spec env k w p w1 h
          exact ht.adv.fixed)
        this0.m_con_inputs
        (fun c hc p hp => by
          rw [hin0] at hc
          exact ⟨inputsValid_mem hval0 hc hp, hM c hc p hp k hk⟩)
        w hw
      obtain ⟨this1, h1, hf1⟩ := fixed_lookup hfix2 hX0
      obtain ⟨hrun1, hval1⟩ := wellFormed_at hwf hX0
      rw [← runnable_congr env hf1] at hrun1
      rw [← inputsValid_congr _ hf1, ← fixed_length hfix2] at hval1
      obtain ⟨g1, hg1⟩ := pullInputs_ok w2.heap this1.m_con_inputs 0 w2.gl
        (fun c hc p hp => inputsValid_mem hval1 hc hp)
      have hty : ∃ type, Map.find env.NODELIB this1.m_nodeid = some type := by
        unfold runnable at hrun1
        cases hfind : Map.find env.NODELIB this1.m_nodeid with
        | none => simp [hfind] at hrun1
        | some type => exact ⟨type, rfl⟩
      obtain ⟨type, hty⟩ := hty
      obtain ⟨r, hr⟩ := BaseNode.compute_ok hrun1 hty (glActiveTexture g1 0)
      unfold NodeInstance.compute
      simp only [h0, deref, Except.bind, bind, hw2, h1, hg1, hty, hr, Except.map, Functor.map]
      exact ⟨_, rfl⟩
  exact key ⟨d, hd⟩

theorem edge_lt_length {heap : List NodeInstance} {d s : Nat} (h : Edge heap d s) :
    d < heap.length := by
  obtain ⟨c, hc, -⟩ := h
  unfold inputsAt at hc
  cases hd : heap[d]? with
  | none => simp [hd] at hc
  | some X => exact lt_length_of_getElem? hd

/-- A rank that decreases along every input connection rules out cycles. -/
theorem acyclic_of_rankedBy (rank : Nat → Nat) (heap : List NodeInstance)
    (h : rankedBy rank heap = true) : Acyclic heap := by
  have hedge : ∀ d s, Edge heap d s → rank s < rank d := by
    intro d s he
    have hd := edge_lt_length he
    obtain ⟨c, hc, hp⟩ := he
    unfold rankedBy at h
    rw [List.all_eq_true] at h
    have h1 := h d (List.mem_range.2 hd)
    rw [List.all_eq_true] at h1
    have h2 := h1 c hc
    simpa [hp] using h2
  have htrans : ∀ a b, Relation.TransGen (Edge heap) a b → rank b < rank a := by
    intro a b hab
    induction hab with
    | single h1 => exact hedge _ _ h1
    | tail _ h2 ih => exact lt_trans (hedge _ _ h2) ih
  intro a ha
  exact lt_irrefl _ (htrans a a ha)

/-- C4: dependency order of `compute`. In a state without dangling
connections whose input connections are acyclic, for every live target
instance `d`, dirty or clean, a recursion depth exists from which `compute`
on `d` returns; it dispatches the algorithm of `d` exactly once, as the last
dispatch of the call; every direct source of `d` that was dirty before the
call has its algorithm dispatched before; and after the call `d` and each of
those sources are clean. -/
theorem compute_dependency_order (env : Env) (w : World) (d : Nat)
    (hwf : wellFormed env w.heap = true) (hac : Acyclic w.heap) (hd : d < w.heap.length) :
    ∃ N, ∀ depth, N ≤ depth → ∃ w1 t,
      NodeInstance.compute env depth w d = .ok w1 ∧
      w1.dispatched = w.dispatched ++ t ++ [d] ∧ d ∉ t ∧
      (∀ s, Edge w.heap d s → dirtyAt w.heap s = true → s ∈ t ∧ dirtyAt w1.heap s = false) ∧
      dirtyAt w1.heap d = false := by
  obtain ⟨N, hN⟩ := compute_returns env w hwf hac d hd
  refine ⟨N, fun depth hdep => ?_⟩
  obtain ⟨w1, hw1⟩ := hN depth hdep w rfl
  obtain ⟨t, ht⟩ := compute_spec env depth w d w1 hw1
  refine ⟨w1, t, hw1, ?_, ?_, ?_, ?_⟩
  · rw [ht.adv.log, List.append_assoc]
  · intro hmem
    exact hac d (ht.reach d hmem)
  · intro s hs hdirty
    have hmem := ht.sources s hs hdirty
    exact ⟨hmem, ht.adv.clean s (List.mem_append_left _ hmem)⟩
  · exact ht.adv.clean d (List.mem_append_right _ (List.mem_singleton_self _))

/-- C4 on the two-node graph texture loader -> blend node, both dirty: the
upstream algorithm is dispatched first and both end clean. -/
theorem compute_dependency_order_witness :
    wellFormed sampleEnv chainWorld.heap = true ∧ Acyclic chainWorld.heap ∧
    1 < chainWorld.heap.length ∧
    dirtyAt chainWorld.heap 0 = true ∧ dirtyAt chainWorld.heap 1 = true ∧
    (orElse (NodeInstance.compute sampleEnv 2 chainWorld 1) chainWorld).dispatched = [0, 1] ∧
    dirtyAt (orElse (NodeInstance.compute sampleEnv 2 chainWorld 1) chainWorld).heap 0 = false ∧
    dirtyAt (orElse (NodeInstance.compute sampleEnv 2 chainWorld 1) chainWorld).heap 1 = false ∧
    ∃ N, ∀ depth, N ≤ depth → ∃ w1 t,
      NodeInstance.compute sampleEnv depth chainWorld 1 = .ok w1 ∧
      w1.dispatched = chainWorld.dispatched ++ t ++ [1] ∧ 1 ∉ t ∧
      (∀ s, Edge chainWorld.heap 1 s → dirtyAt chainWorld.heap s = true →
        s ∈ t ∧ dirtyAt w1.heap s = false) ∧
      dirtyAt w1.heap 1 = false :=
  ⟨by decide, acyclic_of_rankedBy id _ (by decide), by decide, by decide, by decide, by decide,
    by decide, by decide,
    compute_dependency_order sampleEnv chainWorld 1 (by decide)
      (acyclic_of_rankedBy id _ (by decide)) (by decide)⟩

theorem computeInputs_clean (recurse : World → Nat → Result World) (w : World) :
    ∀ (cs : List Connection),
      (∀ c ∈ cs, ∀ p, c.ptrNode = some p → p < w.heap.length ∧ dirtyAt w.heap p = false) →
      NodeInstance.computeInputs recurse cs w = .ok w := by
  intro cs
  induction cs with
  | nil => intro _; rfl
  | cons c cs ih =>
    intro hv
    have hv1 := fun c1 hc1 => hv c1 (List.mem_cons_of_mem _ hc1)
    unfold NodeInstance.computeInputs
    cases hp : c.ptrNode with
    | none => simp only []; exact ih hv1
    | some p =>
      obtain ⟨hlt, hclean⟩ := hv c (List.mem_cons_self _ _) p hp
      have hc : (w.heap[p]).m_isDirty = false := by
        simpa [dirtyAt, List.getElem?_eq_getElem hlt] using hclean
      simp only [List.getElem?_eq_getElem hlt, deref, Except.bind, bind, hc]
      exact ih hv1

/-- C5, as the code has it: `compute` on a clean instance whose connected
sources are all clean performs no recursive dependency evaluation. It returns
at recursion depth 1 already, so no `compute` of another instance is invoked;
the only algorithm dispatched is the own algorithm of the instance; and no
dirty flag changes, that of another instance in particular. (The members of
every other instance are as they were. What the draws of the algorithm do to
the textures and framebuffers of OpenGL is not part of this statement.) -/
theorem compute_clean_sources_no_recursion (env : Env) (w : World) (d : Nat) (D : NodeInstance)
    (hD : w.heap[d]? = some D) (hclean : D.m_isDirty = false) (hrun : runnable env D = true)
    (hsrc : ∀ c ∈ D.m_con_inputs, ∀ p, c.ptrNode = some p →
      p < w.heap.length ∧ dirtyAt w.heap p = false) :
    ∀ depth, 1 ≤ depth → ∃ w1, NodeInstance.compute env depth w d = .ok w1 ∧
      w1.dispatched = w.dispatched ++ [d] ∧
      (∀ a, dirtyAt w1.heap a = dirtyAt w.heap a) ∧
      (∀ a, a ≠ d → w1.heap[a]? = w.heap[a]?) := by
  intro depth hdep
  obtain ⟨k, rfl⟩ : ∃ k, depth = k + 1 := ⟨depth - 1, by omega⟩
  have hin := computeInputs_clean (NodeInstance.compute env k) w D.m_con_inputs hsrc
  obtain ⟨g1, hg1⟩ := pullInputs_ok w.heap D.m_con_inputs 0 w.gl
    (fun c hc p hp => (hsrc c hc p hp).1)
  have hty : ∃ type, Map.find env.NODELIB D.m_nodeid = some type := by
    unfold runnable at hrun
    cases hfind : Map.find env.NODELIB D.m_nodeid with
    | none => simp [hfind] at hrun
    | some type => exact ⟨type, rfl⟩
  obtain ⟨type, hty⟩ := hty
  obtain ⟨r, hr⟩ := BaseNode.compute_ok hrun hty (glActiveTexture g1 0)
  have hlen : d < w.heap.length := lt_length_of_getElem? hD
  have hold : dirtyAt w.heap d = false := by simp [dirtyAt, hD, hclean]
  unfold NodeInstance.compute
  simp only [hD, deref, Except.bind, bind, hin, hg1, hty, hr, Except.map, Functor.map]
  refine ⟨_, rfl, rfl, ?_, ?_⟩
  · intro a
    by_cases ha : a = d
    · subst ha
      rw [hold]
      exact dirtyAt_set_self _ hlen
    · exact dirtyAt_congr (List.getElem?_set_ne (Ne.symm ha))
  · intro a ha
    exact List.getElem?_set_ne (Ne.symm ha)

/-- C5, amended, at the chain texture loader -> blend node after a first
`compute` on the blend node: both are clean, and computing the blend node
again at recursion depth 1 dispatches its algorithm only and changes no
dirty flag. -/
theorem compute_clean_sources_no_recursion_witness :
    computedChainWorld.heap[1]? = some (instAt computedChainWorld 1) ∧
    (instAt computedChainWorld 1).m_isDirty = false ∧
    (instAt computedChainWorld 1).m_con_inputs.map (fun c => c.ptrNode) = [some 0, none] ∧
    dirtyAt computedChainWorld.heap 0 = false ∧
    computedChainWorld.dispatched = [0, 1] ∧
    ∃ w1, NodeInstance.compute sampleEnv 1 computedChainWorld 1 = .ok w1 ∧
      w1.dispatched = [0, 1, 1] ∧
      ∀ a, dirtyAt w1.heap a = dirtyAt computedChainWorld.heap a := by
  refine ⟨by decide, by decide, by decide, by decide, by decide, ?_⟩
  obtain ⟨w1, h1, h2, h3, -⟩ := compute_clean_sources_no_recursion sampleEnv
    computedChainWorld 1 (instAt computedChainWorld 1) (by decide) (by decide) (by decide)
    (by decide) 1 (le_refl 1)
  refine ⟨w1, h1, ?_, h3⟩
  rw [h2]
  decide

/-- C5 fails as stated: in `cleanBlendWorld` the blend node at address 1 is
clean and its input 0 is fed by the dirty texture loader at address 0;
`compute` on the blend node returns, having dispatched the algorithm of the
texture loader before its own and cleared the dirty flag of the texture
loader. -/
theorem compute_clean_instance_recurses :
    dirtyAt cleanBlendWorld.heap 1 = false ∧
    dirtyAt cleanBlendWorld.heap 0 = true ∧
    ∃ w1, NodeInstance.compute sampleEnv 2 cleanBlendWorld 1 = .ok w1 ∧
      w1.dispatched = cleanBlendWorld.dispatched ++ [0, 1] ∧
      dirtyAt w1.heap 0 = false :=
  ⟨by decide, by decide,
    orElse (NodeInstance.compute sampleEnv 2 cleanBlendWorld 1) cleanBlendWorld,
    by rfl, by decide, by decide⟩

/-! ## Pin counts -/

theorem pinsMatch_of_same {env : Env} {X Y : NodeInstance} (hid : Y.m_nodeid = X.m_nodeid)
    (hin : Y.m_con_inputs.length = X.m_con_inputs.length)
    (hout : Y.m_con_outputs.length = X.m_con_outputs.length) (h : pinsMatch env X) :
    pinsMatch env Y := by
  obtain ⟨type, h1, h2, h3⟩ := h
  exact ⟨type, by rw [hid]; exact h1, by rw [hin]; exact h2, by rw [hout]; exact h3⟩

theorem pinsMatch_congr {env : Env} {X Y : NodeInstance} (h : Y.fixed = X.fixed)
    (hX : pinsMatch env X) : pinsMatch env Y := by
  simp only [NodeInstance.fixed, Prod.mk.injEq] at h
  obtain ⟨h1, h2, h3, -, -⟩ := h
  exact pinsMatch_of_same h3 (by rw [h1]) (by rw [h2]) hX

theorem pinInvariant_of_fixed {env : Env} {w w1 : World}
    (hf : w1.heap.map NodeInstance.fixed = w.heap.map NodeInstance.fixed)
    (h : PinInvariant env w) : PinInvariant env w1 := by
  intro X1 hX1
  obtain ⟨a, ha, hget⟩ := List.getElem_of_mem hX1
  have h1 : w1.heap[a]? = some X1 := by rw [List.getElem?_eq_getElem ha, hget]
  obtain ⟨X, hX, hfx⟩ := fixed_lookup hf.symm h1
  exact pinsMatch_congr hfx.symm (h X (List.getElem?_mem hX))

theorem BaseNode.genTextures_fixed :
    ∀ (pins : List Pin) (id : Nat) (X : NodeInstance) (g : GLState) (r : NodeInstance × GLState),
      BaseNode.genTextures pins id X g = .ok r → r.1.fixed = X.fixed := by
  intro pins
  induction pins with
  | nil =>
    intro id X g r h
    simp only [BaseNode.genTextures, Except.ok.injEq] at h
    subst h; rfl
  | cons p pins ih =>
    intro id X g r h
    unfold BaseNode.genTextures at h
    split at h
    · exact (ih _ _ _ _ h).trans rfl
    · cases h

theorem BaseNode.v_gen_tex_memory_fixed {env : Env} {type : BaseNode} {X : NodeInstance}
    {g : GLState} {r : NodeInstance × GLState} (h : type.v_gen_tex_memory env X g = .ok r) :
    r.1.fixed = X.fixed := by
  unfold BaseNode.v_gen_tex_memory at h
  cases hk : type.kind with
  | node =>
    simp only [hk, BaseNode.v_gen_tex_memory_base] at h
    cases hg : BaseNode.genTextures type.m_output_definitions 0 X g with
    | error e => simp [hg, Except.map, Functor.map] at h
    | ok r1 =>
      simp only [hg, Except.map, Functor.map, Except.ok.injEq] at h
      subst h
      exact BaseNode.genTextures_fixed _ _ _ _ r1 hg
  | textureNode =>
    simp only [hk] at h
    exact (TextureNode.load_fixed h).1
  | distance =>
    simp only [hk, Except.ok.injEq] at h
    subst h; rfl

theorem bind_ok {α β : Type} {x : Result α} {f : α → Result β} {b : β} :
    x.bind f = .ok b ↔ ∃ a, x = .ok a ∧ f a = .ok b := by
  cases x <;> simp [Except.bind]

theorem map_ok {α β : Type} {x : Result α} {f : α → β} {b : β} :
    x.map f = .ok b ↔ ∃ a, x = .ok a ∧ f a = b := by
  cases x <;> simp [Except.map]

theorem deref_ok {α : Type} {o : Option α} {a : α} : deref o = .ok a ↔ o = some a := by
  cases o <;> simp [deref]

theorem BaseNode.genTextures_dirty :
    ∀ (pins : List Pin) (id : Nat) (X : NodeInstance) (g : GLState) (r : NodeInstance × GLState),
      BaseNode.genTextures pins id X g = .ok r → r.1.m_isDirty = X.m_isDirty := by
  intro pins
  induction pins with
  | nil =>
    intro id X g r h
    simp only [BaseNode.genTextures, Except.ok.injEq] at h
    subst h; rfl
  | cons p pins ih =>
    intro id X g r h
    unfold BaseNode.genTextures at h
    split at h
    · exact (ih _ _ _ _ h).trans rfl
    · cases h

theorem BaseNode.v_gen_tex_memory_dirty {env : Env} {type : BaseNode} {X : NodeInstance}
    {g : GLState} {r : NodeInstance × GLState} (h : type.v_gen_tex_memory env X g = .ok r) :
    r.1.m_isDirty = X.m_isDirty := by
  unfold BaseNode.v_gen_tex_memory at h
  cases hk : type.kind with
  | node =>
    simp only [hk, BaseNode.v_gen_tex_memory_base, map_ok] at h
    obtain ⟨r1, hg, rfl⟩ := h
    exact BaseNode.genTextures_dirty _ _ _ _ r1 hg
  | textureNode =>
    simp only [hk] at h
    exact (TextureNode.load_fixed h).2
  | distance =>
    simp only [hk, Except.ok.injEq] at h
    subst h; rfl

theorem BaseNode.v_gen_buffers_wiring (type : BaseNode) (X : NodeInstance) (g : GLState) :
    (type.v_gen_buffers X g).1.m_con_inputs = X.m_con_inputs ∧
    (type.v_gen_buffers X g).1.m_con_outputs = X.m_con_outputs ∧
    (type.v_gen_buffers X g).1.m_nodeid = X.m_nodeid ∧
    (type.v_gen_buffers X g).1.m_properties = X.m_properties ∧
    (type.v_gen_buffers X g).1.m_isDirty = X.m_isDirty := by
  unfold BaseNode.v_gen_buffers
  cases type.kind <;> exact ⟨rfl, rfl, rfl, rfl, rfl⟩

/-- What the constructor returns: the old instances followed by a new one,
dirty, with one unconnected input slot per input pin and one empty output
list per output pin of its node type. -/
theorem NodeInstance.new_instance {env : Env} {w w1 : World} {iWidth iHeight a : Nat}
    {sNodeId : String} (h : NodeInstance.new env w iWidth iHeight sNodeId = .ok (w1, a)) :
    ∃ X type, w1.heap = w.heap ++ [X] ∧ a = w.heap.length ∧
      Map.find env.NODELIB sNodeId = some type ∧ X.m_nodeid = sNodeId ∧
      X.m_isDirty = true ∧
      X.m_con_inputs = List.replicate type.m_input_definitions.length (Connection.mk none 0) ∧
      X.m_con_outputs = List.replicate type.m_output_definitions.length [] := by
  simp only [NodeInstance.new, bind_ok, map_ok, deref_ok, Prod.mk.injEq] at h
  obtain ⟨type, hty, props, -, r2, hr2, hw1, ha⟩ := h
  have hfix := BaseNode.v_gen_tex_memory_fixed hr2
  have hdirty := BaseNode.v_gen_tex_memory_dirty hr2
  obtain ⟨b1, b2, b3, -, b5⟩ := BaseNode.v_gen_buffers_wiring type
    { m_isDirty := true, m_con_outputs := [], m_con_inputs := [],
      m_gl_texture_ids := List.replicate MAX_CHANNELS 0, m_gl_texture_w := iWidth,
      m_gl_texture_h := iHeight, m_gl_framebuffers := List.replicate MAX_CHANNELS 0,
      m_nodeid := sNodeId, m_properties := [] } w.gl
  simp only [NodeInstance.fixed, Prod.mk.injEq] at hfix
  obtain ⟨f1, f2, f3, -, -⟩ := hfix
  refine ⟨r2.1, type, by rw [← hw1], ha.symm, hty, ?_, ?_, ?_, ?_⟩
  · rw [f3]; exact b3
  · rw [hdirty]; exact b5
  · rw [f1]; simp only [b1]; simp
  · rw [f2]; simp only [b2]; simp

theorem connect_ok_inv {w w1 : World} {src dst o i : Nat}
    (h : NodeInstance.connect w src dst o i = .ok w1) :
    ∃ S D, w.heap[src]? = some S ∧ w.heap[dst]? = some D ∧
      o < S.m_con_outputs.length ∧ i < D.m_con_inputs.length := by
  simp only [NodeInstance.connect, bind_ok, deref_ok] at h
  obtain ⟨S, hS, outs, houts, D1, hD1, h⟩ := h
  have ho : o < S.m_con_outputs.length := lt_length_of_getElem? houts
  have hdl : dst < w.heap.length := by
    have := lt_length_of_getElem? hD1
    simpa using this
  split at h
  · rename_i hi
    by_cases hsd : src = dst
    · subst hsd
      rw [List.getElem?_set_self (lt_length_of_getElem? hS)] at hD1
      cases hD1
      exact ⟨S, S, hS, hS, ho, hi⟩
    · rw [List.getElem?_set_ne hsd] at hD1
      exact ⟨S, D1, hS, hD1, ho, hi⟩
  · cases h

theorem connect_pinInvariant {env : Env} {w w1 : World} {src dst o i : Nat}
    (h : NodeInstance.connect w src dst o i = .ok w1) (hinv : PinInvariant env w) :
    PinInvariant env w1 := by
  obtain ⟨S, D, hS, hD, ho, hi⟩ := connect_ok_inv h
  obtain ⟨w2, hw2, -, -, hlen, hall⟩ := connect_eq w src dst o i S D hS hD ho hi
  rw [h] at hw2
  cases hw2
  intro X1 hX1
  obtain ⟨a, ha, hget⟩ := List.getElem_of_mem hX1
  have ha0 : a < w.heap.length := by rw [← hlen]; exact ha
  have h1 := hall a _ (List.getElem?_eq_getElem ha0)
  rw [List.getElem?_eq_getElem ha, hget] at h1
  cases h1
  refine pinsMatch_of_same (X := w.heap[a]) rfl ?_ ?_ (hinv _ (List.getElem_mem ha0))
  · simp only [connected]; split <;> simp
  · simp only [connected]; split <;> simp

theorem setProperty_pinInvariant {env : Env} {w w1 : World} {self : Nat} {propname : String}
    {ptr : Source} (h : NodeInstance.setProperty w self propname ptr = .ok w1)
    (hinv : PinInvariant env w) : PinInvariant env w1 := by
  simp only [NodeInstance.setProperty, bind_ok, deref_ok] at h
  obtain ⟨this0, h0, h⟩ := h
  split at h
  · simp only [map_ok] at h
    obtain ⟨props, -, rfl⟩ := h
    intro X1 hX1
    rcases List.mem_or_eq_of_mem_set hX1 with hm | hm
    · exact hinv X1 hm
    · subst hm
      exact pinsMatch_of_same rfl rfl rfl (hinv this0 (List.getElem?_mem h0))
  · cases h
    exact hinv

/-- C3: the pin-count invariant (every instance has as many input slots as
its node type has input pins and as many output lists as it has output
pins). In a state where it holds, it holds again after a construction, whose
new instance has all input slots unconnected and all output lists empty,
after every `connect` that returns (an in-range one), after every
`setProperty` and after every `compute`. It holds in the state without
instances. -/
theorem pin_counts_invariant (env : Env) (w : World) (hinv : PinInvariant env w) :
    (∀ iWidth iHeight sNodeId w1 a,
      NodeInstance.new env w iWidth iHeight sNodeId = .ok (w1, a) →
      PinInvariant env w1 ∧ ∃ X type, w1.heap[a]? = some X ∧
        Map.find env.NODELIB X.m_nodeid = some type ∧
        X.m_con_inputs = List.replicate type.m_input_definitions.length (Connection.mk none 0) ∧
        X.m_con_outputs = List.replicate type.m_output_definitions.length []) ∧
    (∀ src dst o i w1, NodeInstance.connect w src dst o i = .ok w1 → PinInvariant env w1) ∧
    (∀ self propname ptr w1, NodeInstance.setProperty w self propname ptr = .ok w1 →
      PinInvariant env w1) ∧
    (∀ depth self w1, NodeInstance.compute env depth w self = .ok w1 → PinInvariant env w1) ∧
    PinInvariant env { w with heap := [] } := by
  refine ⟨?_, ?_, ?_, ?_, ?_⟩
  · intro iWidth iHeight sNodeId w1 a h
    obtain ⟨X, type, hheap, ha, hty, hid, -, hin, hout⟩ := NodeInstance.new_instance h
    have hX : pinsMatch env X := ⟨type, by rw [hid]; exact hty, by rw [hin]; simp,
      by rw [hout]; simp⟩
    refine ⟨?_, X, type, ?_, by rw [hid]; exact hty, hin, hout⟩
    · intro Y hY
      rw [hheap] at hY
      rcases List.mem_append.1 hY with hm | hm
      · exact hinv Y hm
      · rw [List.mem_singleton.1 hm]; exact hX
    · rw [hheap, ha]; simp
  · intro src dst o i w1 h
    exact connect_pinInvariant h hinv
  · intro self propname ptr w1 h
    exact setProperty_pinInvariant h hinv
  · intro depth self w1 h
    obtain ⟨t, ht⟩ := compute_spec env depth w self w1 h
    exact pinInvariant_of_fixed ht.adv.fixed hinv
  · intro X hX
    cases hX

/-- C3 at the samples: the invariant holds without instances, hence after
constructing a blend node, hence after computing it. -/
theorem pin_counts_invariant_witness :
    PinInvariant sampleEnv emptyWorld ∧
    PinInvariant sampleEnv (build ["blend"] emptyWorld) ∧
    PinInvariant sampleEnv
      (orElse (NodeInstance.compute sampleEnv 1 (build ["blend"] emptyWorld) 0) emptyWorld) :=
  have h0 : PinInvariant sampleEnv emptyWorld := fun X hX => by cases hX
  have h1 : PinInvariant sampleEnv (build ["blend"] emptyWorld) :=
    ((pin_counts_invariant sampleEnv emptyWorld h0).1 16 16 "blend"
      (build ["blend"] emptyWorld) 0 (by rfl)).1
  ⟨h0, h1,
    (pin_counts_invariant sampleEnv (build ["blend"] emptyWorld) h1).2.2.2.1 1 0 _ (by rfl)⟩

/-! ## Property values -/

theorem strlen_append (s rest : List Nat) (hs : ∀ b ∈ s, b ≠ 0) :
    strlen (s ++ 0 :: rest) = some s.length := by
  induction s with
  | nil => simp [strlen]
  | cons b s ih =>
    have hb : b ≠ 0 := hs b (List.mem_cons_self _ _)
    have := ih fun c hc => hs c (List.mem_cons_of_mem _ hc)
    simp [strlen, hb, this]

theorem Map.find_assign {α : Type} (m : Map α) (key : String) (x : α) {y : α}
    (h : Map.find m key = some y) : Map.find (Map.assign m key x) key = some x := by
  induction m with
  | nil => simp [Map.find] at h
  | cons kv m ih =>
    obtain ⟨k, v⟩ := kv
    by_cases hk : k = key
    · simp [Map.assign, Map.find, hk]
    · simp only [Map.find, hk, if_false] at h
      simp [Map.assign, Map.find, hk, ih h]

/-- What `setValue` makes of a string-typed property, for a source that
holds the bytes `s`, none of them NUL, then a NUL, and that does not overlap
the buffer of the property: the size is `length(s) + 1` modulo 2^32, and the
buffer holds that many of the source bytes. -/
theorem prop.setValue_string_eq (p : prop) (s rest : List Nat)
    (hty : p.type = some EXTRATYPE_STRING) (hs : ∀ b ∈ s, b ≠ 0) :
    p.setValue (Source.mk (s ++ 0 :: rest) false) =
      .ok { p with
        dsize := some ((s.length + 1) % 2 ^ 32)
        value := some ((s ++ 0 :: rest).take ((s.length + 1) % 2 ^ 32)) } := by
  simp [prop.setValue, hty, strlen_append s rest hs]

/-- C6, as the code has it: on a string-typed property, `setValue` of a
NUL-terminated byte string `s` (the bytes `s`, none of them NUL, then a NUL,
then whatever follows in memory) whose size `length(s) + 1` fits the
`unsigned int` size member (it is below 2^32) and whose memory does not
overlap the buffer of the property leaves size `length(s) + 1` and a buffer
of exactly the bytes of `s` followed by one NUL, whatever the previous size
and value were; `setProperty` does the same to a string-typed property of an
instance. -/
theorem setValue_string (p : prop) (s rest : List Nat)
    (hty : p.type = some EXTRATYPE_STRING) (hs : ∀ b ∈ s, b ≠ 0)
    (hfit : s.length + 1 < 2 ^ 32) :
    p.setValue (Source.mk (s ++ 0 :: rest) false) =
      .ok { p with dsize := some (s.length + 1), value := some (s ++ [0]) } ∧
    ∀ (w : World) (self : Nat) (X : NodeInstance) (propname : String),
      w.heap[self]? = some X → Map.find X.m_properties propname = some p →
      ∃ w1 X1,
        NodeInstance.setProperty w self propname (Source.mk (s ++ 0 :: rest) false) = .ok w1 ∧
        w1.heap[self]? = some X1 ∧
        Map.find X1.m_properties propname =
          some { p with dsize := some (s.length + 1), value := some (s ++ [0]) } := by
  have hset : p.setValue (Source.mk (s ++ 0 :: rest) false) =
      .ok { p with dsize := some (s.length + 1), value := some (s ++ [0]) } := by
    have htake : List.take (s.length + 1) (s ++ 0 :: rest) = s ++ [0] := by
      rw [List.take_append_eq_append_take]
      simp
    rw [prop.setValue_string_eq p s rest hty hs, Nat.mod_eq_of_lt hfit, htake]
  refine ⟨hset, ?_⟩
  intro w self X propname hX hp
  have hlen : self < w.heap.length := lt_length_of_getElem? hX
  simp only [NodeInstance.setProperty, hX, deref, Except.bind, Map.count, hp, Map.setValueAt,
    hset, Except.map, ne_eq, one_ne_zero, not_false_eq_true, if_true]
  exact ⟨_, _, rfl, List.getElem?_set_self hlen, Map.find_assign _ _ _ hp⟩

/-- C6 on the example of the specification: a string property set to "abc"
and then to "a" holds the two bytes 'a', NUL. -/
theorem setValue_string_witness :
    (prop.mk (some EXTRATYPE_STRING) (some 4) (some [97, 98, 99, 0]) none).type =
      some EXTRATYPE_STRING ∧
    (∀ b ∈ [97], b ≠ 0) ∧
    [97].length + 1 < 2 ^ 32 ∧
    ((prop.mk (some EXTRATYPE_STRING) (some 1) (some [0]) none).setValue
        (Source.mk [97, 98, 99, 0] false)).bind
      (fun p => p.setValue (Source.mk [97, 0] false)) =
      .ok (prop.mk (some EXTRATYPE_STRING) (some 2) (some [97, 0]) none) ∧
    (prop.mk (some EXTRATYPE_STRING) (some 4) (some [97, 98, 99, 0]) none).setValue
      (Source.mk ([97] ++ 0 :: []) false) =
      .ok (prop.mk (some EXTRATYPE_STRING) (some 2) (some [97, 0]) none) :=
  ⟨rfl, by decide, by decide, by rfl,
    (setValue_string (prop.mk (some EXTRATYPE_STRING) (some 4) (some [97, 98, 99, 0]) none)
      [97] [] rfl (by decide) (by decide)).1⟩

/-- C6 fails as stated, in two ways. For the string of 2^32 - 1 bytes 1
followed by a NUL, the size `length + 1` does not fit the `unsigned int`
size member: `setValue` leaves size 0 and an empty buffer. For a source that
is the buffer of the property itself, `setValue` reads the buffer after it
was freed. -/
theorem setValue_string_wraps :
    (prop.mk (some EXTRATYPE_STRING) (some 1) (some [0]) none).setValue
        (Source.mk (List.replicate 4294967295 1 ++ 0 :: []) false) =
      .ok (prop.mk (some EXTRATYPE_STRING) (some 0) (some []) none) ∧
    (prop.mk (some EXTRATYPE_STRING) (some 2) (some [97, 0]) none).setValue
        (Source.mk [97, 0] true) =
      .error Fault.undefinedBehaviour := by
  constructor
  · have h := prop.setValue_string_eq (prop.mk (some EXTRATYPE_STRING) (some 1) (some [0]) none)
      (List.replicate 4294967295 1) [] rfl
      (fun b hb => by rw [List.eq_of_mem_replicate hb]; exact Nat.one_ne_zero)
    have hmod : (4294967295 + 1) % 2 ^ 32 = 0 := by norm_num
    rw [List.length_replicate, hmod, List.take_zero] at h
    exact h
  · rfl

/-! ## Node types -/

theorem prop.new_float {t : Nat} (i : Int)
    (ht : t = GL_FLOAT ∨ t = GL_FLOAT_VEC2 ∨ t = GL_FLOAT_VEC3 ∨ t = GL_FLOAT_VEC4) :
    ∃ p, prop.new t none i = .ok p := by
  rcases ht with h | h | h | h <;> subst h <;> exact ⟨_, rfl⟩

theorem samplerPins_length (us : List (String × Nat)) :
    ∀ i, (samplerPins i us).length = (us.filter fun u => u.2 = GL_SAMPLER_2D).length := by
  induction us with
  | nil => intro i; rfl
  | cons u us ih =>
    intro i
    by_cases hs : u.2 = GL_SAMPLER_2D
    · simp [samplerPins, List.filter_cons, hs, ih]
    · simp [samplerPins, List.filter_cons, hs, ih]

/-- The uniform loop returns; it keeps the dynamic type, the shader and the
output pins, and appends the pins of the sampler uniforms to the input pins. -/
theorem BaseNode.addUniforms_spec :
    ∀ (us : List (String × Nat)) (n : BaseNode) (i : Nat),
      ∃ n1, BaseNode.addUniforms n i us = .ok n1 ∧ n1.kind = n.kind ∧
        n1.m_operator_shader = n.m_operator_shader ∧
        n1.m_output_definitions = n.m_output_definitions ∧
        n1.m_input_definitions = n.m_input_definitions ++ samplerPins i us := by
  intro us
  induction us with
  | nil => intro n i; exact ⟨n, rfl, rfl, rfl, rfl, by simp [samplerPins]⟩
  | cons u us ih =>
    intro n i
    unfold BaseNode.addUniforms BaseNode.addUniform
    by_cases hf : u.2 = GL_FLOAT ∨ u.2 = GL_FLOAT_VEC2 ∨ u.2 = GL_FLOAT_VEC3 ∨ u.2 = GL_FLOAT_VEC4
    · obtain ⟨p, hp⟩ := prop.new_float (i : Int) hf
      have hns : ¬ u.2 = GL_SAMPLER_2D := by
        rcases hf with h | h | h | h <;> rw [h] <;> decide
      simp only [hf, if_true, hp, Except.map, Except.bind]
      obtain ⟨n1, h1, h2, h3, h4, h5⟩ := ih
        { n with m_prop_definitions := Map.insert n.m_prop_definitions (u.1, prop.move p) } (i + 1)
      refine ⟨n1, h1, h2, h3, h4, ?_⟩
      rw [h5]; simp [samplerPins, hns]
    · by_cases hs : u.2 = GL_SAMPLER_2D
      · simp only [hf, if_false, hs, if_true, Except.bind]
        obtain ⟨n1, h1, h2, h3, h4, h5⟩ := ih
          { n with m_input_definitions :=
              n.m_input_definitions ++ [{ name := u.1, location := (i : Int) }] } (i + 1)
        refine ⟨n1, h1, h2, h3, h4, ?_⟩
        rw [h5]; simp [samplerPins, hs]
      · simp only [hf, if_false, hs, Except.bind]
        obtain ⟨n1, h1, h2, h3, h4, h5⟩ := ih n (i + 1)
        refine ⟨n1, h1, h2, h3, h4, ?_⟩
        rw [h5]; simp [samplerPins, hs]

/-- The `BaseNode` constructor returns a node type without output pins and
with one input pin per sampler uniform. -/
theorem BaseNode.new_pins (kind : NodeKind) (sh : Shader) :
    ∃ n, BaseNode.new kind sh = .ok n ∧ n.kind = kind ∧ n.m_operator_shader = sh ∧
      n.m_output_definitions = [] ∧
      n.m_input_definitions = samplerPins 0 sh.uniforms := by
  obtain ⟨n, h1, h2, h3, h4, h5⟩ := BaseNode.addUniforms_spec sh.uniforms
    { kind := kind, m_operator_shader := sh, m_prop_definitions := [],
      m_input_definitions := [], m_output_definitions := [] } 0
  exact ⟨n, h1, h2, h3, h4, by simpa using h5⟩

/-! ## `init` -/

theorem init.addOutputs_nil (ienv : InitEnv) (k : Nat) (n : BaseNode) :
    init.addOutputs ienv [] k n = n := rfl

/-- C7: for a descriptor with an `info` block and a `shader` block that
declares no outputs (no `outputs` sub-block, or one without `output`
entries), the node type `init` builds has the output-pin list [Pin "output" 0],
and this is the node type the entry is registered with. -/
theorem init_default_output (ienv : InitEnv) (lib : Map BaseNode) (entry : DirEntry)
    (headNode block_info block_shader : DataBlock)
    (hhead : entry.headNode = some headNode)
    (hinfo : headNode.GetFirstByName "info" = some block_info)
    (hshader : headNode.GetFirstByName "shader" = some block_shader)
    (hout : ∀ b, block_shader.GetFirstByName "outputs" = some b → b.GetAllByName "output" = []) :
    ∃ node, init.buildNode ienv block_info block_shader = .ok node ∧
      node.m_output_definitions = [{ name := "output", location := 0 }] ∧
      init.processEntry ienv lib entry =
        (deref (ienv.split entry.filename ".tcfn")[0]?).map fun key =>
          Map.insert lib (key, node) := by
  obtain ⟨n, hn, -, -, hno, -⟩ := BaseNode.new_pins NodeKind.node
    (ienv.compile
      (tryGetStringValue block_shader.Values "vertex" "shaders/engine/quadbase.vs")
      (tryGetStringValue block_shader.Values "fragment" "shaders/engine/tarcfnode/passthrough.fs")
      ("tarcfn::" ++ tryGetStringValue block_info.Values "name" "none"))
  have hbuild : init.buildNode ienv block_info block_shader =
      .ok { n with m_output_definitions := [{ name := "output", location := 0 }] } := by
    unfold init.buildNode
    rw [hn]
    cases hb : block_shader.GetFirstByName "outputs" with
    | none => simp [Except.map, hno]
    | some b => simp [Except.map, hout b hb, init.addOutputs, hno]
  refine ⟨_, hbuild, rfl, ?_⟩
  simp only [init.processEntry, hhead, hinfo, hshader, hbuild, Except.bind]

/-- C7 at the sample directory: the blend descriptor has no `outputs` block. -/
theorem init_default_output_witness :
    (DirEntry.mk "blend.tcfn" (some blendDescriptor)).headNode = some blendDescriptor ∧
    ∃ node, init.buildNode sampleInitEnv (.mk "info" [("name", "blend")] [])
        (.mk "shader" [("fragment", "shaders/blend.fs")] []) = .ok node ∧
      node.m_output_definitions = [{ name := "output", location := 0 }] := by
  refine ⟨rfl, ?_⟩
  obtain ⟨node, h1, h2, -⟩ := init_default_output sampleInitEnv []
    (DirEntry.mk "blend.tcfn" (some blendDescriptor)) blendDescriptor
    (.mk "info" [("name", "blend")] []) (.mk "shader" [("fragment", "shaders/blend.fs")] [])
    rfl (by rfl) (by rfl) (by intro b hb; cases hb)
  exact ⟨node, h1, h2⟩

/-- C8: a descriptor file that can be read and lacks the `info` block or the
`shader` block leaves the node library exactly as it was, and the loop goes
on with the next file. -/
theorem init_skips_incomplete (ienv : InitEnv) (lib : Map BaseNode) (entry : DirEntry)
    (headNode : DataBlock) (hhead : entry.headNode = some headNode)
    (hmiss : headNode.GetFirstByName "info" = none ∨ headNode.GetFirstByName "shader" = none) :
    init.processEntry ienv lib entry = .ok lib ∧
    ∀ rest, init.loadNodes ienv lib (entry :: rest) = init.loadNodes ienv lib rest := by
  have h : init.processEntry ienv lib entry = .ok lib := by
    unfold init.processEntry
    rw [hhead]
    rcases hmiss with h | h
    · simp only [h]
    · simp only [h]
      cases headNode.GetFirstByName "info" <;> rfl
  refine ⟨h, fun rest => ?_⟩
  simp only [init.loadNodes, h, Except.bind]

/-- C8 at the sample directory: the descriptor without a `shader` block is
skipped, and the library `init` builds has no key for it. -/
theorem init_skips_incomplete_witness :
    (DirEntry.mk "broken.tcfn" (some brokenDescriptor)).headNode = some brokenDescriptor ∧
    (brokenDescriptor.GetFirstByName "info" = none ∨
      brokenDescriptor.GetFirstByName "shader" = none) ∧
    init.processEntry sampleInitEnv [] (DirEntry.mk "broken.tcfn" (some brokenDescriptor)) =
      .ok [] ∧
    sampleLib.map (fun kv => kv.1) = ["texture", "distance", "blend"] :=
  ⟨rfl, Or.inr (by rfl),
    (init_skips_incomplete sampleInitEnv [] (DirEntry.mk "broken.tcfn" (some brokenDescriptor))
      brokenDescriptor rfl (Or.inr (by rfl))).1,
    by decide⟩

/-! ## The distance node type -/

theorem Map.find_append_none {α : Type} (m : Map α) (kv : String × α) (key : String)
    (h : Map.find m key = none) :
    Map.find (m ++ [kv]) key = if kv.1 = key then some kv.2 else none := by
  induction m with
  | nil => simp [Map.find]
  | cons e m ih =>
    obtain ⟨k, v⟩ := e
    by_cases hk : k = key
    · simp [Map.find, hk] at h
    · simp only [Map.find, hk, if_false] at h
      simp only [List.cons_append, Map.find, hk, if_false]
      exact ih h

theorem Map.find_insert_ne {α : Type} (m : Map α) (kv : String × α) (key : String)
    (hne : kv.1 ≠ key) (h : Map.find m key = none) :
    Map.find (Map.insert m kv) key = none := by
  unfold Map.insert
  cases Map.find m kv.1 with
  | some _ => exact h
  | none => simp only []; rw [Map.find_append_none m kv key h]; simp [hne]

theorem BaseNode.addUniforms_find_none (key : String) :
    ∀ (us : List (String × Nat)) (n n1 : BaseNode) (i : Nat),
      (∀ u ∈ us, u.1 ≠ key) → Map.find n.m_prop_definitions key = none →
      BaseNode.addUniforms n i us = .ok n1 → Map.find n1.m_prop_definitions key = none := by
  intro us
  induction us with
  | nil =>
    intro n n1 i _ hn h
    simp only [BaseNode.addUniforms, Except.ok.injEq] at h
    subst h; exact hn
  | cons u us ih =>
    intro n n1 i hne hn h
    have hu : u.1 ≠ key := hne u (List.mem_cons_self _ _)
    have hrest := fun v hv => hne v (List.mem_cons_of_mem _ hv)
    simp only [BaseNode.addUniforms, bind_ok] at h
    obtain ⟨n2, h2, h3⟩ := h
    refine ih n2 n1 (i + 1) hrest ?_ h3
    unfold BaseNode.addUniform at h2
    split at h2
    · simp only [map_ok] at h2
      obtain ⟨p, -, rfl⟩ := h2
      exact Map.find_insert_ne _ _ _ hu hn
    · split at h2
      · cases h2; exact hn
      · cases h2; exact hn

/-- C10, as the code has it: the distance node type has exactly one output
pin, Pin "output" 0, whatever its shader reports; its input pins are one per
active sampler-2D uniform of the shader followed by Pin "input" 0, so it has
exactly one input pin only when the shader reports no sampler-2D uniform.
Every instance constructed from it has that many input slots and one
output list. The constructor returns whenever no uniform is named
"maxdist". -/
theorem distance_pins (sh : Shader) (n : BaseNode) (h : Distance.new sh = .ok n) :
    n.kind = NodeKind.distance ∧
    n.m_output_definitions = [{ name := "output", location := 0 }] ∧
    n.m_input_definitions = samplerPins 0 sh.uniforms ++ [{ name := "input", location := 0 }] ∧
    n.m_input_definitions.length =
      (sh.uniforms.filter fun u => u.2 = GL_SAMPLER_2D).length + 1 ∧
    (n.m_input_definitions.length = 1 ↔ ∀ u ∈ sh.uniforms, u.2 ≠ GL_SAMPLER_2D) ∧
    (∀ (env : Env) (w w1 : World) (iWidth iHeight a : Nat) (sNodeId : String),
      Map.find env.NODELIB sNodeId = some n →
      NodeInstance.new env w iWidth iHeight sNodeId = .ok (w1, a) →
      ∃ X, w1.heap[a]? = some X ∧
        X.m_con_inputs.length = (sh.uniforms.filter fun u => u.2 = GL_SAMPLER_2D).length + 1 ∧
        X.m_con_outputs.length = 1) ∧
    ((∀ u ∈ sh.uniforms, u.1 ≠ "maxdist") → ∃ n1, Distance.new sh = .ok n1) := by
  obtain ⟨n0, hn0, hkind, -, hout, hin⟩ := BaseNode.new_pins NodeKind.distance sh
  have hfinal : n.kind = NodeKind.distance ∧
      n.m_output_definitions = [{ name := "output", location := 0 }] ∧
      n.m_input_definitions = n0.m_input_definitions ++ [{ name := "input", location := 0 }] := by
    simp only [Distance.new, hn0, bind_ok, map_ok, Except.ok.injEq, exists_eq_left'] at h
    obtain ⟨p, -, defs1, -, rfl⟩ := h
    exact ⟨hkind, by simp [hout], rfl⟩
  obtain ⟨h1, h2, h3⟩ := hfinal
  rw [hin] at h3
  have hlen : n.m_input_definitions.length =
      (sh.uniforms.filter fun u => u.2 = GL_SAMPLER_2D).length + 1 := by
    rw [h3, List.length_append, samplerPins_length]; rfl
  refine ⟨h1, h2, h3, hlen, ?_, ?_, ?_⟩
  · rw [hlen]
    constructor
    · intro h0 u hu hs
      have h00 : (sh.uniforms.filter fun u => u.2 = GL_SAMPLER_2D) = [] :=
        List.length_eq_zero.1 (by omega)
      have hmem : u ∈ sh.uniforms.filter fun u => u.2 = GL_SAMPLER_2D :=
        List.mem_filter.2 ⟨hu, by simpa using hs⟩
      rw [h00] at hmem
      cases hmem
    · intro h0
      have : (sh.uniforms.filter fun u => u.2 = GL_SAMPLER_2D) = [] := by
        rw [List.filter_eq_nil_iff]
        intro u hu
        simpa using h0 u hu
      rw [this]; rfl
  · intro env w w1 iWidth iHeight a sNodeId hfind hnew
    obtain ⟨X, type, hheap, ha, hty, -, -, hXin, hXout⟩ := NodeInstance.new_instance hnew
    rw [hfind] at hty
    cases hty
    refine ⟨X, by rw [hheap, ha]; simp, ?_, ?_⟩
    · rw [hXin, List.length_replicate, hlen]
    · rw [hXout, List.length_replicate, h2]; rfl
  · intro hname
    have hnone : Map.find n0.m_prop_definitions "maxdist" = none :=
      BaseNode.addUniforms_find_none "maxdist" sh.uniforms
        { kind := NodeKind.distance, m_operator_shader := sh, m_prop_definitions := [],
          m_input_definitions := [], m_output_definitions := [] } n0 0 hname rfl hn0
    have hins : Map.insert n0.m_prop_definitions
        ("maxdist", prop.move (prop.mk (some GL_INT) (some 4) (some [0, 0, 0, 0]) (some (-1)))) =
        n0.m_prop_definitions ++
          [("maxdist", prop.move (prop.mk (some GL_INT) (some 4) (some [0, 0, 0, 0]) (some (-1))))] := by
      simp [Map.insert, hnone]
    have hnew : prop.new GL_INT none (-1) =
        .ok (prop.mk (some GL_INT) (some 4) (some [0, 0, 0, 0]) (some (-1))) := rfl
    have hfind := Map.find_append_none n0.m_prop_definitions
      ("maxdist", prop.move (prop.mk (some GL_INT) (some 4) (some [0, 0, 0, 0]) (some (-1))))
      "maxdist" hnone
    simp only [if_true] at hfind
    have hsv : ∃ p1, (prop.move (prop.mk (some GL_INT) (some 4) (some [0, 0, 0, 0])
        (some (-1)))).setValue (Source.mk (intBytes 255) false) = .ok p1 := ⟨_, rfl⟩
    obtain ⟨p1, hp1⟩ := hsv
    simp only [Distance.new, hn0, Except.bind, hnew, hins, Map.setValueAt, hfind, hp1, Except.map]
    exact ⟨_, rfl⟩

/-- The distance node type the sample library holds. -/
theorem distance_pins_witness :
    ∃ n, Distance.new (sampleCompile "" "shaders/engine/tarcfnode/distance.fs" "d") = .ok n ∧
      n.m_output_definitions = [{ name := "output", location := 0 }] ∧
      n.m_input_definitions.length = 2 := by
  have hex : ∃ n, Distance.new (sampleCompile "" "shaders/engine/tarcfnode/distance.fs" "d")
      = .ok n := ⟨_, rfl⟩
  obtain ⟨n, hn⟩ := hex
  obtain ⟨-, h2, -, h3, -⟩ :=
    distance_pins (sampleCompile "" "shaders/engine/tarcfnode/distance.fs" "d") n hn
  exact ⟨n, hn, h2, by rw [h3]; decide⟩

/-- C10 fails as stated: for a distance shader that reports one float and
one sampler-2D uniform, the distance node type has two input pins, the one of
the sampler and `input`. -/
theorem distance_has_two_inputs :
    ∃ n, Distance.new
        { symbolicName := "tarcfn.distance", programID := 2,
          uniforms := [("iter", GL_FLOAT), ("tex_in", GL_SAMPLER_2D)] } = .ok n ∧
      n.m_input_definitions =
        [{ name := "tex_in", location := 1 }, { name := "input", location := 0 }] ∧
      n.m_output_definitions = [{ name := "output", location := 0 }] :=
  ⟨_, rfl, by decide, by decide⟩

/-! ## The distance pass -/

/-- The draw that iteration `i` of the distance loop issues in state `g`. -/
theorem Distance.pass_spec (sh : Shader) (node : NodeInstance) (g : GLState) (i : Nat) :
    ∃ r, (Distance.pass sh node g i).draws = g.draws ++ [r] ∧
      r.framebuffer = node.m_gl_framebuffers.getD (i % 2) 0 ∧
      (0 < i → r.texture g.activeUnit = node.m_gl_texture_ids.getD ((i + 1) % 2) 0) ∧
      (Distance.pass sh node g i).activeUnit = g.activeUnit ∧
      (Distance.pass sh node g i).attachments = g.attachments := by
  unfold Distance.pass
  by_cases hi : i > 0
  · simp only [if_pos hi]
    refine ⟨_, rfl, rfl, fun _ => ?_, rfl, rfl⟩
    simp [DrawRecord.texture, Shader.setFloat, GLState.log, glBindTexture, glBindFramebuffer,
      lookup0]
  · simp only [if_neg hi]
    exact ⟨_, rfl, rfl, fun h => absurd h hi, rfl, rfl⟩

/-- The draws of the first `n` iterations of the distance loop. -/
theorem Distance.passes_spec (sh : Shader) (node : NodeInstance) (g : GLState) :
    ∀ n, (Distance.passes sh node g n).draws.length = g.draws.length + n ∧
      (Distance.passes sh node g n).activeUnit = g.activeUnit ∧
      (Distance.passes sh node g n).attachments = g.attachments ∧
      (∀ j, j < g.draws.length → (Distance.passes sh node g n).draws[j]? = g.draws[j]?) ∧
      ∀ i, i < n → ∃ r, (Distance.passes sh node g n).draws[g.draws.length + i]? = some r ∧
        r.framebuffer = node.m_gl_framebuffers.getD (i % 2) 0 ∧
        (0 < i → r.texture g.activeUnit = node.m_gl_texture_ids.getD ((i + 1) % 2) 0) := by
  intro n
  induction n with
  | zero =>
    have h0 : Distance.passes sh node g 0 = g := rfl
    rw [h0]
    exact ⟨rfl, rfl, rfl, fun _ _ => rfl, fun i hi => absurd hi (Nat.not_lt_zero _)⟩
  | succ n ih =>
    obtain ⟨h1, h2, h3, h4, h5⟩ := ih
    have hstep : Distance.passes sh node g (n + 1) =
        Distance.pass sh node (Distance.passes sh node g n) n := by
      simp [Distance.passes, List.range_succ, List.foldl_append]
    obtain ⟨r, hr1, hr2, hr3, hr4, hr5⟩ :=
      Distance.pass_spec sh node (Distance.passes sh node g n) n
    rw [hstep, hr1]
    refine ⟨by simp [h1]; omega, by rw [hr4, h2], by rw [hr5, h3], ?_, ?_⟩
    · intro j hj
      rw [List.getElem?_append_left (by omega)]
      exact h4 j hj
    · intro i hi
      by_cases hin : i < n
      · obtain ⟨r1, hr, hrest⟩ := h5 i hin
        refine ⟨r1, ?_, hrest⟩
        rw [List.getElem?_append_left (by omega)]
        exact hr
      · have hieq : i = n := by omega
        subst hieq
        refine ⟨r, ?_, hr2, ?_⟩
        · rw [List.getElem?_append_right (by omega)]
          simp [h1]
        · intro h0
          rw [← h2]
          exact hr3 h0

/-- C9: ping-pong of the distance compute. For a distance instance whose
framebuffer `k` has texture `k` attached (`k` = 0, 1) and whose two textures
differ, as the constructor leaves them, `Distance::compute` returns after the
set-up draw and exactly 255 further draws, those of the iterations
`i = 0..254`. The draw of iteration `i` renders into framebuffer `i mod 2`,
that is into texture `i mod 2`; for `i >= 1` the texture bound for reading
is texture `(i + 1) mod 2`, which is the texture the draw of iteration
`i - 1` rendered into and is not the texture being rendered into. The last
draw renders into texture 0, the texture the input loop of a downstream
`compute` binds for this instance. -/
theorem distance_ping_pong (env : Env) (node : NodeInstance) (g : GLState) (type : BaseNode)
    (hty : Map.find env.NODELIB node.m_nodeid = some type)
    (hatt : ∀ k, k < 2 →
      g.attachment (node.m_gl_framebuffers.getD k 0) 0 = node.m_gl_texture_ids.getD k 0)
    (hne : node.m_gl_texture_ids.getD 0 0 ≠ node.m_gl_texture_ids.getD 1 0) :
    ∃ g1, Distance.compute env node g = .ok g1 ∧
      g1.draws.length = g.draws.length + 1 + 255 ∧
      (∀ i, i < 255 → ∃ r, g1.draws[g.draws.length + 1 + i]? = some r ∧
        r.framebuffer = node.m_gl_framebuffers.getD (i % 2) 0 ∧
        r.target g1 = node.m_gl_texture_ids.getD (i % 2) 0 ∧
        (1 ≤ i →
          r.texture g.activeUnit = node.m_gl_texture_ids.getD ((i + 1) % 2) 0 ∧
          r.texture g.activeUnit ≠ r.target g1 ∧
          ∃ r0, g1.draws[g.draws.length + 1 + (i - 1)]? = some r0 ∧
            r.texture g.activeUnit = r0.target g1)) ∧
      (∃ r, g1.draws[g.draws.length + 1 + 254]? = some r ∧ g1.draws.getLast? = some r ∧
        r.target g1 = node.m_gl_texture_ids.getD 0 0) ∧
      ∀ (heap : List NodeInstance) (p o : Nat) (g2 : GLState), heap[p]? = some node →
        NodeInstance.pullInputs heap [Connection.mk (some p) o] 0 g2 =
          .ok (glBindTexture (glActiveTexture g2 0) (node.m_gl_texture_ids.getD 0 0)) := by
  -- the state in which the loop starts
  have hex : ∃ g3, g3 = Mesh.Draw (type.m_operator_shader.use
      (glViewport g node.m_gl_texture_w node.m_gl_texture_h)) := ⟨_, rfl⟩
  obtain ⟨g3, hg3⟩ := hex
  have hlen3 : g3.draws.length = g.draws.length + 1 := by
    rw [hg3]; simp [Mesh.Draw, Shader.use, glViewport, GLState.log]
  have hact3 : g3.activeUnit = g.activeUnit := by rw [hg3]; rfl
  have hatt3 : g3.attachments = g.attachments := by rw [hg3]; rfl
  have hcomp : Distance.compute env node g =
      .ok (glBindFramebuffer (Distance.passes type.m_operator_shader node g3 255) 0) := by
    simp only [Distance.compute, hty, deref, Except.map, hg3]
  obtain ⟨h1, -, h3, -, h5⟩ := Distance.passes_spec type.m_operator_shader node g3 255
  generalize Distance.passes type.m_operator_shader node g3 255 = g4 at hcomp h1 h3 h5
  have hdraws : (glBindFramebuffer g4 0).draws = g4.draws := rfl
  have htarget : ∀ (r : DrawRecord) (k : Nat), k < 2 →
      r.framebuffer = node.m_gl_framebuffers.getD k 0 →
      r.target (glBindFramebuffer g4 0) = node.m_gl_texture_ids.getD k 0 := by
    intro r k hk hr
    have : (glBindFramebuffer g4 0).attachments = g.attachments := by
      show g4.attachments = _
      rw [h3, hatt3]
    simp only [DrawRecord.target, GLState.attachment, this, hr]
    exact hatt k hk
  have hmod : ∀ i : Nat, i % 2 < 2 := fun i => Nat.mod_lt _ (by decide)
  have hiter : ∀ i, i < 255 → ∃ r,
      (glBindFramebuffer g4 0).draws[g.draws.length + 1 + i]? = some r ∧
      r.framebuffer = node.m_gl_framebuffers.getD (i % 2) 0 ∧
      (0 < i → r.texture g.activeUnit = node.m_gl_texture_ids.getD ((i + 1) % 2) 0) := by
    intro i hi
    obtain ⟨r, hr1, hr2, hr3⟩ := h5 i hi
    rw [hlen3] at hr1
    rw [hact3] at hr3
    exact ⟨r, by rw [hdraws]; exact hr1, hr2, hr3⟩
  refine ⟨_, hcomp, by rw [hdraws, h1, hlen3], ?_, ?_, ?_⟩
  · intro i hi
    obtain ⟨r, hr1, hr2, hr3⟩ := hiter i hi
    refine ⟨r, hr1, hr2, htarget r _ (hmod i) hr2, fun hi1 => ?_⟩
    obtain ⟨r0, hr01, hr02, -⟩ := hiter (i - 1) (by omega)
    have hpar : (i - 1) % 2 = (i + 1) % 2 := by omega
    have hneq : node.m_gl_texture_ids.getD ((i + 1) % 2) 0 ≠
        node.m_gl_texture_ids.getD (i % 2) 0 := by
      rcases Nat.mod_two_eq_zero_or_one i with h | h
      · have : (i + 1) % 2 = 1 := by omega
        rw [h, this]; exact Ne.symm hne
      · have : (i + 1) % 2 = 0 := by omega
        rw [h, this]; exact hne
    refine ⟨hr3 (by omega), ?_, r0, hr01, ?_⟩
    · rw [hr3 (by omega), htarget r _ (hmod i) hr2]; exact hneq
    · rw [hr3 (by omega), htarget r0 _ (hmod (i - 1)) hr02, hpar]
  · obtain ⟨r, hr1, hr2, -⟩ := hiter 254 (by decide)
    refine ⟨r, hr1, ?_, htarget r 0 (by decide) hr2⟩
    rw [List.getLast?_eq_getElem?, hdraws, h1, hlen3]
    rw [hdraws] at hr1
    exact hr1
  · intro heap p o g2 hp
    simp [NodeInstance.pullInputs, hp, deref, Except.bind]

/-- C9 at the sample world: the distance node at address 2, in the state
its constructor left. -/
theorem distance_ping_pong_witness :
    Map.find sampleEnv.NODELIB (instAt sampleWorld 2).m_nodeid = some sampleDistanceType ∧
    (∀ k, k < 2 → sampleWorld.gl.attachment ((instAt sampleWorld 2).m_gl_framebuffers.getD k 0) 0
      = (instAt sampleWorld 2).m_gl_texture_ids.getD k 0) ∧
    (instAt sampleWorld 2).m_gl_texture_ids.getD 0 0 ≠
      (instAt sampleWorld 2).m_gl_texture_ids.getD 1 0 ∧
    ∃ g1, Distance.compute sampleEnv (instAt sampleWorld 2) sampleWorld.gl = .ok g1 ∧
      g1.draws.length = 256 := by
  refine ⟨by decide, by decide, by decide, ?_⟩
  obtain ⟨g1, h1, h2, -⟩ := distance_ping_pong sampleEnv (instAt sampleWorld 2) sampleWorld.gl
    sampleDistanceType (by decide) (by decide) (by decide)
  exact ⟨g1, h1, by rw [h2]; decide⟩

theorem Distance.v_gen_buffers_names (X : NodeInstance) (g : GLState)
    (hlen : 2 ≤ X.m_gl_framebuffers.length) :
    (Distance.v_gen_buffers X g).1.m_gl_framebuffers.getD 0 0 = g.nextFramebuffer ∧
    (Distance.v_gen_buffers X g).1.m_gl_framebuffers.getD 1 0 = g.nextFramebuffer + 1 ∧
    (Distance.v_gen_buffers X g).1.m_gl_texture_ids = X.m_gl_texture_ids := by
  have h0 : 0 < X.m_gl_framebuffers.length := by omega
  have h1 : 1 < X.m_gl_framebuffers.length := by omega
  simp [Distance.v_gen_buffers, glGenFramebuffers, List.getD_eq_getElem?_getD,
    List.getElem?_set, h0, h1, List.range']

theorem Distance.v_gen_tex_memory_attachments (X : NodeInstance) (g : GLState)
    (hlen : 2 ≤ X.m_gl_texture_ids.length)
    (hfb : X.m_gl_framebuffers.getD 0 0 ≠ X.m_gl_framebuffers.getD 1 0) :
    (∀ k, k < 2 →
      (Distance.v_gen_tex_memory X g).2.attachment
          ((Distance.v_gen_tex_memory X g).1.m_gl_framebuffers.getD k 0) 0 =
        (Distance.v_gen_tex_memory X g).1.m_gl_texture_ids.getD k 0) ∧
    (Distance.v_gen_tex_memory X g).1.m_gl_texture_ids.getD 0 0 ≠
      (Distance.v_gen_tex_memory X g).1.m_gl_texture_ids.getD 1 0 := by
  have h0 : 0 < X.m_gl_texture_ids.length := by omega
  have h1 : 1 < X.m_gl_texture_ids.length := by omega
  have hfb1 : ¬ X.m_gl_framebuffers[1]?.getD 0 = X.m_gl_framebuffers[0]?.getD 0 := by
    intro e
    apply hfb
    rw [List.getD_eq_getElem?_getD, List.getD_eq_getElem?_getD, e]
  constructor
  · intro k hk2
    have hk01 : k = 0 ∨ k = 1 := by omega
    rcases hk01 with rfl | rfl
    · simp [Distance.v_gen_tex_memory, glGenTextures, glBindFramebuffer, glBindTexture,
        glTexImage2D, glTexParameteri, glFramebufferTexture2D, glDrawBuffers, GLState.log,
        GLState.attachment, lookup0, List.getD_eq_getElem?_getD, List.getElem?_set, h0, h1,
        hfb1]
    · simp [Distance.v_gen_tex_memory, glGenTextures, glBindFramebuffer, glBindTexture,
        glTexImage2D, glTexParameteri, glFramebufferTexture2D, glDrawBuffers, GLState.log,
        GLState.attachment, lookup0, List.getD_eq_getElem?_getD, List.getElem?_set, h0, h1]
  · simp [Distance.v_gen_tex_memory, glGenTextures, glBindFramebuffer, glBindTexture,
      glTexImage2D, glTexParameteri, glFramebufferTexture2D, glDrawBuffers, GLState.log,
      List.getD_eq_getElem?_getD, List.getElem?_set, h0, h1]

/-- The constructor leaves a distance instance with framebuffer `k`
rendering into texture `k` (`k` = 0, 1) and with two different textures. -/
theorem distance_new_buffers {env : Env} {w w1 : World} {iWidth iHeight a : Nat}
    {sNodeId : String} {type : BaseNode} (hty : Map.find env.NODELIB sNodeId = some type)
    (hk : type.kind = NodeKind.distance)
    (h : NodeInstance.new env w iWidth iHeight sNodeId = .ok (w1, a)) :
    ∃ X, w1.heap[a]? = some X ∧
      (∀ k, k < 2 →
        w1.gl.attachment (X.m_gl_framebuffers.getD k 0) 0 = X.m_gl_texture_ids.getD k 0) ∧
      X.m_gl_texture_ids.getD 0 0 ≠ X.m_gl_texture_ids.getD 1 0 := by
  simp only [NodeInstance.new, bind_ok, map_ok, deref_ok, Prod.mk.injEq, hty,
    Option.some.injEq, exists_eq_left', BaseNode.v_gen_tex_memory, hk, BaseNode.v_gen_buffers,
    Except.ok.injEq] at h
  obtain ⟨props, -, hw1, ha⟩ := h
  obtain ⟨b0, b1, b2⟩ := Distance.v_gen_buffers_names
    { m_isDirty := true, m_con_outputs := [], m_con_inputs := [],
      m_gl_texture_ids := List.replicate MAX_CHANNELS 0, m_gl_texture_w := iWidth,
      m_gl_texture_h := iHeight, m_gl_framebuffers := List.replicate MAX_CHANNELS 0,
      m_nodeid := sNodeId, m_properties := [] } w.gl (by simp [MAX_CHANNELS])
  generalize Distance.v_gen_buffers
    { m_isDirty := true, m_con_outputs := [], m_con_inputs := [],
      m_gl_texture_ids := List.replicate MAX_CHANNELS 0, m_gl_texture_w := iWidth,
      m_gl_texture_h := iHeight, m_gl_framebuffers := List.replicate MAX_CHANNELS 0,
      m_nodeid := sNodeId, m_properties := [] } w.gl = r1 at hw1 b0 b1 b2
  obtain ⟨X3, hX3, hfb3, htex3⟩ : ∃ X3 : NodeInstance,
      w1 = { heap := w.heap ++ [(Distance.v_gen_tex_memory X3 r1.2).1],
             gl := glCheckFramebufferStatus (Distance.v_gen_tex_memory X3 r1.2).2,
             dispatched := w.dispatched } ∧
      X3.m_gl_framebuffers = r1.1.m_gl_framebuffers ∧
      X3.m_gl_texture_ids = r1.1.m_gl_texture_ids := ⟨_, hw1.symm, rfl, rfl⟩
  have key := Distance.v_gen_tex_memory_attachments X3 r1.2
    (by rw [htex3, b2]; simp [MAX_CHANNELS]) (by rw [hfb3, b0, b1]; omega)
  generalize Distance.v_gen_tex_memory X3 r1.2 = r2 at hX3 key
  subst hX3
  subst ha
  exact ⟨r2.1, List.getElem?_concat_length _ _, key⟩

/-! ## The dirty flag -/

theorem connect_dirty {w w1 : World} {src dst o i : Nat}
    (h : NodeInstance.connect w src dst o i = .ok w1) :
    w1.heap.length = w.heap.length ∧ ∀ a, dirtyAt w1.heap a = dirtyAt w.heap a := by
  obtain ⟨S, D, hS, hD, ho, hi⟩ := connect_ok_inv h
  obtain ⟨w2, hw2, -, -, hlen, hall⟩ := connect_eq w src dst o i S D hS hD ho hi
  rw [h] at hw2
  cases hw2
  refine ⟨hlen, fun a => ?_⟩
  cases ha : w.heap[a]? with
  | none =>
    have h1 : w1.heap[a]? = none := by
      rw [List.getElem?_eq_none_iff] at ha ⊢
      omega
    simp [dirtyAt, ha, h1]
  | some X => simp [dirtyAt, ha, hall a X ha, connected]

theorem setProperty_dirty {w w1 : World} {self : Nat} {propname : String} {ptr : Source}
    (h : NodeInstance.setProperty w self propname ptr = .ok w1) :
    w1.heap.length = w.heap.length ∧ ∀ a, dirtyAt w1.heap a = dirtyAt w.heap a := by
  simp only [NodeInstance.setProperty, bind_ok, deref_ok] at h
  obtain ⟨this0, h0, h⟩ := h
  split at h
  · simp only [map_ok] at h
    obtain ⟨props, -, rfl⟩ := h
    refine ⟨by simp, fun a => ?_⟩
    by_cases ha : self = a
    · subst ha
      rw [dirtyAt_set_self _ (lt_length_of_getElem? h0)]
      simp [dirtyAt, h0]
    · exact dirtyAt_congr (List.getElem?_set_ne ha)
  · cases h
    exact ⟨rfl, fun _ => rfl⟩

theorem compute_dirty {env : Env} {depth : Nat} {w w1 : World} {self : Nat}
    (h : NodeInstance.compute env depth w self = .ok w1) :
    w1.heap.length = w.heap.length ∧
    ∀ a, dirtyAt w1.heap a = dirtyAt w.heap a ∨ dirtyAt w1.heap a = false := by
  obtain ⟨t, ht⟩ := compute_spec env depth w self w1 h
  refine ⟨fixed_length ht.adv.fixed, fun a => ?_⟩
  by_cases ha : a ∈ t ++ [self]
  · exact Or.inr (ht.adv.clean a ha)
  · exact Or.inl (dirtyAt_congr (ht.adv.others a ha))

/-- No operation turns a clean instance dirty. -/
theorem Op.apply_clean {env : Env} {w w1 : World} {op : Op} (h : op.apply env w = .ok w1) :
    w1.heap.length = w.heap.length ∧
    ∀ a, dirtyAt w.heap a = false → dirtyAt w1.heap a = false := by
  cases op with
  | connect src dst o i =>
    obtain ⟨h1, h2⟩ := connect_dirty h
    exact ⟨h1, fun a ha => by rw [h2 a]; exact ha⟩
  | setProperty self propname ptr =>
    obtain ⟨h1, h2⟩ := setProperty_dirty h
    exact ⟨h1, fun a ha => by rw [h2 a]; exact ha⟩
  | compute depth self =>
    obtain ⟨h1, h2⟩ := compute_dirty h
    refine ⟨h1, fun a ha => ?_⟩
    rcases h2 a with e | e
    · rw [e]; exact ha
    · exact e

theorem runOps_clean (env : Env) :
    ∀ (ops : List Op) (w w1 : World), runOps env ops w = .ok w1 →
      w1.heap.length = w.heap.length ∧
      ∀ a, dirtyAt w.heap a = false → dirtyAt w1.heap a = false := by
  intro ops
  induction ops with
  | nil =>
    intro w w1 h
    simp only [runOps, Except.ok.injEq] at h
    subst h
    exact ⟨rfl, fun _ ha => ha⟩
  | cons op ops ih =>
    intro w w1 h
    simp only [runOps, bind_ok] at h
    obtain ⟨w2, h2, h3⟩ := h
    obtain ⟨l1, c1⟩ := Op.apply_clean h2
    obtain ⟨l2, c2⟩ := ih w2 w1 h3
    exact ⟨l2.trans l1, fun a ha => c2 a (c1 a ha)⟩

/-- C11: the dirty flag is never re-armed. A constructed instance is
dirty and the construction leaves the older instances as they were;
`setProperty` and `connect` leave the dirty flag of every instance
unchanged; `compute` leaves each dirty flag unchanged or false; so after
every sequence of `connect`, `setProperty` and `compute` operations that
returns, an instance that was clean is still there and still clean. -/
theorem dirty_never_rearmed (env : Env) (w : World) :
    (∀ iWidth iHeight sNodeId w1 a,
      NodeInstance.new env w iWidth iHeight sNodeId = .ok (w1, a) →
      dirtyAt w1.heap a = true ∧ ∀ b, b < w.heap.length → w1.heap[b]? = w.heap[b]?) ∧
    (∀ src dst o i w1, NodeInstance.connect w src dst o i = .ok w1 →
      ∀ a, dirtyAt w1.heap a = dirtyAt w.heap a) ∧
    (∀ self propname ptr w1, NodeInstance.setProperty w self propname ptr = .ok w1 →
      ∀ a, dirtyAt w1.heap a = dirtyAt w.heap a) ∧
    (∀ depth self w1, NodeInstance.compute env depth w self = .ok w1 →
      ∀ a, dirtyAt w1.heap a = dirtyAt w.heap a ∨ dirtyAt w1.heap a = false) ∧
    (∀ (ops : List Op) (w1 : World) (a : Nat) (X : NodeInstance),
      runOps env ops w = .ok w1 → w.heap[a]? = some X → X.m_isDirty = false →
      ∃ X1 : NodeInstance, w1.heap[a]? = some X1 ∧ X1.m_isDirty = false) := by
  refine ⟨?_, ?_, ?_, ?_, ?_⟩
  · intro iWidth iHeight sNodeId w1 a h
    obtain ⟨X, type, hheap, ha, -, -, hdirty, -, -⟩ := NodeInstance.new_instance h
    refine ⟨?_, fun b hb => ?_⟩
    · simp [dirtyAt, hheap, ha, hdirty]
    · rw [hheap, List.getElem?_append_left hb]
  · intro src dst o i w1 h
    exact (connect_dirty h).2
  · intro self propname ptr w1 h
    exact (setProperty_dirty h).2
  · intro depth self w1 h
    exact (compute_dirty h).2
  · intro ops w1 a X h hX hclean
    obtain ⟨hlen, hc⟩ := runOps_clean env ops w w1 h
    have ha : a < w1.heap.length := by rw [hlen]; exact lt_length_of_getElem? hX
    have := hc a (by simp [dirtyAt, hX, hclean])
    refine ⟨w1.heap[a], List.getElem?_eq_getElem ha, ?_⟩
    simpa [dirtyAt, List.getElem?_eq_getElem ha] using this

/-- C11 on the sample operations, from the state in which the distance node
alone has been computed: it is clean before and after, and a freshly
constructed instance is dirty. -/
theorem dirty_never_rearmed_witness :
    distanceDoneWorld.heap[2]? = some (instAt distanceDoneWorld 2) ∧
    (instAt distanceDoneWorld 2).m_isDirty = false ∧
    (∃ w1, runOps sampleEnv sampleOps distanceDoneWorld = .ok w1 ∧
      w1.dispatched = [2, 0, 1] ∧
      ∃ X1, w1.heap[2]? = some X1 ∧ X1.m_isDirty = false) ∧
    dirtyAt (build ["blend"] emptyWorld).heap 0 = true := by
  refine ⟨by decide, by decide, ?_, ?_⟩
  · refine ⟨orElse (runOps sampleEnv sampleOps distanceDoneWorld) emptyWorld,
      by rfl, by decide, ?_⟩
    exact (dirty_never_rearmed sampleEnv distanceDoneWorld).2.2.2.2
      sampleOps _ 2 (instAt distanceDoneWorld 2) (by rfl) (by decide) (by decide)
  · exact ((dirty_never_rearmed sampleEnv emptyWorld).1 16 16 "blend"
      (build ["blend"] emptyWorld) 0 (by rfl)).1

/-! ## Binding locations of the property definitions -/

theorem Map.mem_of_find {α : Type} {m : Map α} {key : String} {x : α}
    (h : Map.find m key = some x) : (key, x) ∈ m := by
  induction m with
  | nil => simp [Map.find] at h
  | cons kv m ih =>
    obtain ⟨k, v⟩ := kv
    by_cases hk : k = key
    · simp only [Map.find, hk, if_true, Option.some.injEq] at h
      subst hk; subst h
      exact List.mem_cons_self _ _
    · simp only [Map.find, hk, if_false] at h
      exact List.mem_cons_of_mem _ (ih h)

theorem Map.mem_insert {α : Type} {m : Map α} {kv e : String × α}
    (h : e ∈ Map.insert m kv) : e ∈ m ∨ e = kv := by
  unfold Map.insert at h
  split at h
  · exact Or.inl h
  · rcases List.mem_append.1 h with h1 | h1
    · exact Or.inl h1
    · exact Or.inr (List.mem_singleton.1 h1)

theorem BaseNode.addUniforms_uniformloc :
    ∀ (us : List (String × Nat)) (n n1 : BaseNode) (i : Nat),
      (∀ e ∈ n.m_prop_definitions, e.2.uniformloc = none) →
      BaseNode.addUniforms n i us = .ok n1 →
      ∀ e ∈ n1.m_prop_definitions, e.2.uniformloc = none := by
  intro us
  induction us with
  | nil =>
    intro n n1 i hn h
    simp only [BaseNode.addUniforms, Except.ok.injEq] at h
    subst h; exact hn
  | cons u us ih =>
    intro n n1 i hn h
    simp only [BaseNode.addUniforms, bind_ok] at h
    obtain ⟨n2, h2, h3⟩ := h
    refine ih n2 n1 (i + 1) ?_ h3
    unfold BaseNode.addUniform at h2
    split at h2
    · simp only [map_ok] at h2
      obtain ⟨p, -, rfl⟩ := h2
      intro e he
      rcases Map.mem_insert he with h1 | h1
      · exact hn e h1
      · rw [h1]; rfl
    · split at h2
      · cases h2; exact hn
      · cases h2; exact hn

/-- No property definition the `BaseNode` constructor stores carries a
binding location: the location given to the temporary is not taken over by
the move into the map. -/
theorem BaseNode.new_uniformloc {kind : NodeKind} {sh : Shader} {n : BaseNode}
    (h : BaseNode.new kind sh = .ok n) {key : String} {p : prop}
    (hp : Map.find n.m_prop_definitions key = some p) : p.uniformloc = none :=
  BaseNode.addUniforms_uniformloc sh.uniforms _ n 0 (fun e he => by cases he) h _
    (Map.mem_of_find hp)

/-- C12 on the blend shader of the samples, whose active uniform 1 is the
vector `gain`: the temporary the constructor builds for it is tagged with
location 1, the definition stored in the property map of the node type has
the same type, size and bytes and an indeterminate location, and so has the
duplicate in the blend instance at address 1. -/
theorem uniform_location_not_stored :
    prop.new GL_FLOAT_VEC2 none 1 =
      .ok (prop.mk (some GL_FLOAT_VEC2) (some 8) (some [0, 0, 0, 0, 0, 0, 0, 0]) (some 1)) ∧
    (∃ n, BaseNode.new NodeKind.node
        (Shader.mk "tarcfn::blend" 3
          [("tex_a", GL_SAMPLER_2D), ("gain", GL_FLOAT_VEC2), ("tex_b", GL_SAMPLER_2D)]) = .ok n ∧
      Map.find n.m_prop_definitions "gain" =
        some (prop.mk (some GL_FLOAT_VEC2) (some 8) (some [0, 0, 0, 0, 0, 0, 0, 0]) none)) ∧
    (Map.find sampleLib "blend").map (fun n => Map.find n.m_prop_definitions "gain") =
      some (some (prop.mk (some GL_FLOAT_VEC2) (some 8) (some [0, 0, 0, 0, 0, 0, 0, 0]) none)) ∧
    Map.find (instAt sampleWorld 1).m_properties "gain" =
      some (prop.mk (some GL_FLOAT_VEC2) (some 8) (some [0, 0, 0, 0, 0, 0, 0, 0]) none) :=
  ⟨by rfl, ⟨_, rfl, by decide⟩, by decide, by decide⟩

/-! ## `compute` on a cycle -/

theorem bind_error {α β : Type} {x : Result α} {f : α → Result β} {e : Fault} :
    x.bind f = .error e ↔ x = .error e ∨ ∃ a, x = .ok a ∧ f a = .error e := by
  cases x <;> simp [Except.bind]

/-- The first loop of `compute` does not get past a slot that leads into a
set `C` of instances on which the recursive call never returns and which
stay dirty. -/
theorem computeInputs_blocked (recurse : World → Nat → Result World) (C : Nat → Prop)
    (Inv : World → Prop)
    (hA : ∀ w c w1, Inv w → C c → recurse w c = .ok w1 → False)
    (hB : ∀ w x w1, Inv w → recurse w x = .ok w1 → Inv w1)
    (hdirty : ∀ w c, Inv w → C c → dirtyAt w.heap c = true) :
    ∀ (cs : List Connection) (w w1 : World), Inv w →
      NodeInstance.computeInputs recurse cs w = .ok w1 →
      Inv w1 ∧ ∀ c ∈ cs, ∀ p, c.ptrNode = some p → ¬ C p := by
  intro cs
  induction cs with
  | nil =>
    intro w w1 hw h
    simp only [NodeInstance.computeInputs, Except.ok.injEq] at h
    subst h
    exact ⟨hw, by simp⟩
  | cons c cs ih =>
    intro w w1 hw h
    unfold NodeInstance.computeInputs at h
    cases hp : c.ptrNode with
    | none =>
      simp only [hp] at h
      obtain ⟨h1, h2⟩ := ih w w1 hw h
      refine ⟨h1, fun c1 hc1 p hp1 => ?_⟩
      rcases List.mem_cons.1 hc1 with e | e
      · subst e; rw [hp] at hp1; cases hp1
      · exact h2 c1 e p hp1
    | some p =>
      simp only [hp, bind_ok, deref_ok] at h
      obtain ⟨src, hsrc, h⟩ := h
      by_cases hd : src.m_isDirty = true
      · simp only [hd, if_true, bind_ok] at h
        obtain ⟨w2, hr, h⟩ := h
        obtain ⟨h1, h2⟩ := ih w2 w1 (hB w p w2 hw hr) h
        refine ⟨h1, fun c1 hc1 q hq => ?_⟩
        rcases List.mem_cons.1 hc1 with e | e
        · subst e
          rw [hp] at hq; cases hq
          exact fun hC => hA w p w2 hw hC hr
        · exact h2 c1 e q hq
      · simp only [hd] at h
        obtain ⟨h1, h2⟩ := ih w w1 hw h
        refine ⟨h1, fun c1 hc1 q hq => ?_⟩
        rcases List.mem_cons.1 hc1 with e | e
        · subst e
          rw [hp] at hq; cases hq
          intro hC
          have := hdirty w p hw hC
          simp [dirtyAt, hsrc, hd] at this
        · exact h2 c1 e q hq

/-- Whenever every instance of a set `C` is dirty and has a direct source in
`C`, no `compute` on an instance of `C` returns, and a `compute` that returns
leaves every instance of `C` dirty. -/
theorem compute_blocked (env : Env) (C : Nat → Prop) (w0 : World)
    (hsucc : ∀ c, C c → ∃ s, C s ∧ Edge w0.heap c s) :
    ∀ (depth : Nat) (w : World) (x : Nat) (w1 : World),
      w.heap.map NodeInstance.fixed = w0.heap.map NodeInstance.fixed →
      (∀ c, C c → dirtyAt w.heap c = true) →
      NodeInstance.compute env depth w x = .ok w1 →
      ¬ C x ∧ w1.heap.map NodeInstance.fixed = w0.heap.map NodeInstance.fixed ∧
        ∀ c, C c → dirtyAt w1.heap c = true := by
  intro depth
  induction depth with
  | zero => intro w x w1 _ _ h; simp [NodeInstance.compute] at h
  | succ depth ih =>
    intro w x w1 hfix hdirty h
    simp only [NodeInstance.compute, bind_ok, map_ok, deref_ok] at h
    obtain ⟨this0, h0, w2, hin, this1, h1, g1, -, type, -, r, halg, rfl⟩ := h
    obtain ⟨⟨hfix2, hdirty2⟩, hno⟩ := computeInputs_blocked (NodeInstance.compute env depth) C
      (fun w => w.heap.map NodeInstance.fixed = w0.heap.map NodeInstance.fixed ∧
        ∀ c, C c → dirtyAt w.heap c = true)
      (fun w c w1 hw hC hr => (ih w c w1 hw.1 hw.2 hr).1 hC)
      (fun w x w1 hw hr => (ih w x w1 hw.1 hw.2 hr).2)
      (fun w c hw hC => hw.2 c hC)
      this0.m_con_inputs w w2 ⟨hfix, hdirty⟩ hin
    have hx : ¬ C x := by
      intro hC
      obtain ⟨s, hs, he⟩ := hsucc x hC
      rw [← edge_congr hfix] at he
      obtain ⟨c, hc, hcp⟩ := he
      simp only [inputsAt, h0] at hc
      exact hno c hc s hcp hs
    refine ⟨hx, ?_, ?_⟩
    · have hf := (BaseNode.compute_fixed halg).1
      exact (map_fixed_set h1 (by rw [← hf]; rfl)).trans hfix2
    · intro c hC
      have hne : x ≠ c := fun e => hx (e ▸ hC)
      rw [dirtyAt_congr (List.getElem?_set_ne hne)]
      exact hdirty2 c hC

theorem computeInputs_fault (recurse : World → Nat → Result World) (w0 : World)
    (hfix : ∀ w p w1, recurse w p = .ok w1 →
      w1.heap.map NodeInstance.fixed = w.heap.map NodeInstance.fixed)
    (hf : ∀ w p f, w.heap.map NodeInstance.fixed = w0.heap.map NodeInstance.fixed →
      p < w0.heap.length → recurse w p = .error f → f = Fault.depthExceeded) :
    ∀ (cs : List Connection), (∀ c ∈ cs, ∀ p, c.ptrNode = some p → p < w0.heap.length) →
      ∀ w f, w.heap.map NodeInstance.fixed = w0.heap.map NodeInstance.fixed →
        NodeInstance.computeInputs recurse cs w = .error f → f = Fault.depthExceeded := by
  intro cs
  induction cs with
  | nil => intro _ w f _ h; simp [NodeInstance.computeInputs] at h
  | cons c cs ih =>
    intro hv w f hw h
    have hv1 := fun c1 hc1 => hv c1 (List.mem_cons_of_mem _ hc1)
    unfold NodeInstance.computeInputs at h
    cases hp : c.ptrNode with
    | none => simp only [hp] at h; exact ih hv1 w f hw h
    | some p =>
      have hlt : p < w0.heap.length := hv c (List.mem_cons_self _ _) p hp
      have hlt1 : p < w.heap.length := by rw [fixed_length hw]; exact hlt
      simp only [hp, List.getElem?_eq_getElem hlt1, deref, Except.bind] at h
      split at h
      · rcases bind_error.1 h with h1 | ⟨w2, h1, h2⟩
        · exact hf w p f hw hlt h1
        · exact ih hv1 w2 f ((hfix w p w2 h1).trans hw) h2
      · exact ih hv1 w f hw h

/-- In a well-formed state the only way `compute` on a live instance fails
to return is by exceeding the recursion depth. -/
theorem compute_fault (env : Env) (w0 : World) (hwf : wellFormed env w0.heap = true) :
    ∀ (depth : Nat) (w : World) (d : Nat) (f : Fault),
      w.heap.map NodeInstance.fixed = w0.heap.map NodeInstance.fixed → d < w0.heap.length →
      NodeInstance.compute env depth w d = .error f → f = Fault.depthExceeded := by
  intro depth
  induction depth with
  | zero =>
    intro w d f _ _ h
    simp only [NodeInstance.compute, Except.error.injEq] at h
    exact h.symm
  | succ depth ih =>
    intro w d f hw hd h
    have hX0 : w0.heap[d]? = some (w0.heap[d]) := List.getElem?_eq_getElem hd
    obtain ⟨hrun0, hval0⟩ := wellFormed_at hwf hX0
    obtain ⟨this0, h0, hf0⟩ := fixed_lookup hw hX0
    have hin0 : this0.m_con_inputs = (w0.heap[d]).m_con_inputs := by
      simp only [NodeInstance.fixed, Prod.mk.injEq] at hf0; exact hf0.1
    have hfixrec : ∀ w p w1, NodeInstance.compute env depth w p = .ok w1 →
        w1.heap.map NodeInstance.fixed = w.heap.map NodeInstance.fixed := by
      intro w p w1 hr
      obtain ⟨t, ht⟩ := compute_spec env depth w p w1 hr
      exact ht.adv.fixed
    unfold NodeInstance.compute at h
    simp only [h0, deref, Except.bind] at h
    cases hin : NodeInstance.computeInputs (NodeInstance.compute env depth)
        this0.m_con_inputs w with
    | error e =>
      simp only [hin, Except.error.injEq] at h
      subst h
      exact computeInputs_fault (NodeInstance.compute env depth) w0 hfixrec
        (fun w p f hw hp hr => ih w p f hw hp hr) this0.m_con_inputs
        (fun c hc p hp => by rw [hin0] at hc; exact inputsValid_mem hval0 hc hp) w e hw hin
    | ok w2 =>
      exfalso
      obtain ⟨t, ht⟩ := computeInputs_spec (NodeInstance.compute env depth)
        (fun w p w1 hr _ => compute_spec env depth w p w1 hr) _ _ _ hin
      have hfix2 := ht.adv.fixed.trans hw
      obtain ⟨this1, h1, hf1⟩ := fixed_lookup hfix2 hX0
      have hrun1 := hrun0
      have hval1 := hval0
      rw [← runnable_congr env hf1] at hrun1
      rw [← inputsValid_congr _ hf1, ← fixed_length hfix2] at hval1
      obtain ⟨g1, hg1⟩ := pullInputs_ok w2.heap this1.m_con_inputs 0 w2.gl
        (fun c hc p hp => inputsValid_mem hval1 hc hp)
      have hty : ∃ type, Map.find env.NODELIB this1.m_nodeid = some type := by
        unfold runnable at hrun1
        cases hfind : Map.find env.NODELIB this1.m_nodeid with
        | none => simp [hfind] at hrun1
        | some type => exact ⟨type, rfl⟩
      obtain ⟨type, hty⟩ := hty
      obtain ⟨r, hr⟩ := BaseNode.compute_ok hrun1 hty (glActiveTexture g1 0)
      simp [hin, h1, hg1, hty, hr, Except.map] at h

/-- A cycle of dirty instances through `d`, as a set closed under taking a
dirty source. -/
theorem dirty_cycle_closed {heap : List NodeInstance} {d : Nat}
    (hcyc : Relation.TransGen (DirtyEdge heap) d d) :
    ∀ c, (Relation.ReflTransGen (DirtyEdge heap) d c ∧
        Relation.ReflTransGen (DirtyEdge heap) c d) →
      dirtyAt heap c = true ∧
      ∃ s, (Relation.ReflTransGen (DirtyEdge heap) d s ∧
        Relation.ReflTransGen (DirtyEdge heap) s d) ∧ Edge heap c s := by
  have hstep : ∀ c, Relation.ReflTransGen (DirtyEdge heap) d c →
      Relation.TransGen (DirtyEdge heap) c d →
      ∃ s, (Relation.ReflTransGen (DirtyEdge heap) d s ∧
        Relation.ReflTransGen (DirtyEdge heap) s d) ∧ Edge heap c s := by
    intro c hdc hcd
    obtain ⟨s, hcs, hsd⟩ := Relation.TransGen.head'_iff.1 hcd
    exact ⟨s, ⟨hdc.tail hcs, hsd⟩, hcs.1⟩
  have hdd : dirtyAt heap d = true := by
    obtain ⟨b, -, hbd⟩ := Relation.TransGen.tail'_iff.1 hcyc
    exact hbd.2
  intro c ⟨hdc, hcd⟩
  constructor
  · rcases Relation.ReflTransGen.cases_tail hdc with e | ⟨b, -, hbc⟩
    · rw [e]; exact hdd
    · exact hbc.2
  · rcases Relation.reflTransGen_iff_eq_or_transGen.1 hcd with e | h
    · subst e; exact hstep d Relation.ReflTransGen.refl hcyc
    · exact hstep c hdc h

/-- C13, as the code has it: `compute` has no cycle guard other than the
dirty flags. When the target instance `d` lies on a cycle of input
connections all of whose instances are dirty, `compute` on `d` returns for no
recursion depth; in a well-formed state it exceeds every recursion depth. -/
theorem compute_dirty_cycle_diverges (env : Env) (w : World) (d : Nat)
    (hcyc : Relation.TransGen (DirtyEdge w.heap) d d) :
    (∀ depth w1, NodeInstance.compute env depth w d ≠ .ok w1) ∧
    (wellFormed env w.heap = true →
      ∀ depth, NodeInstance.compute env depth w d = .error Fault.depthExceeded) := by
  have hclosed := dirty_cycle_closed hcyc
  have hCd : Relation.ReflTransGen (DirtyEdge w.heap) d d ∧
      Relation.ReflTransGen (DirtyEdge w.heap) d d :=
    ⟨Relation.ReflTransGen.refl, Relation.ReflTransGen.refl⟩
  have hnot : ∀ depth w1, NodeInstance.compute env depth w d ≠ .ok w1 := by
    intro depth w1 h
    exact (compute_blocked env
      (fun c => Relation.ReflTransGen (DirtyEdge w.heap) d c ∧
        Relation.ReflTransGen (DirtyEdge w.heap) c d) w
      (fun c hc => (hclosed c hc).2) depth w d w1 rfl
      (fun c hc => (hclosed c hc).1) h).1 hCd
  refine ⟨hnot, fun hwf depth => ?_⟩
  have hd : d < w.heap.length := by
    obtain ⟨s, hds, -⟩ := Relation.TransGen.head'_iff.1 hcyc
    exact edge_lt_length hds.1
  cases hres : NodeInstance.compute env depth w d with
  | ok w1 => exact absurd hres (hnot depth w1)
  | error f => rw [compute_fault env w hwf depth w d f rfl hd hres]

/-- C13, amended, on the samples with the blend node and the distance
node feeding each other, both dirty. -/
theorem compute_dirty_cycle_diverges_witness :
    Relation.TransGen (DirtyEdge cycleWorld.heap) 1 1 ∧
    wellFormed sampleEnv cycleWorld.heap = true ∧
    NodeInstance.compute sampleEnv 7 cycleWorld 1 = .error Fault.depthExceeded ∧
    ∀ depth, NodeInstance.compute sampleEnv depth cycleWorld 1 = .error Fault.depthExceeded :=
  have h12 : DirtyEdge cycleWorld.heap 1 2 :=
    ⟨⟨Connection.mk (some 2) 0, by decide, rfl⟩, by decide⟩
  have h21 : DirtyEdge cycleWorld.heap 2 1 :=
    ⟨⟨Connection.mk (some 1) 0, by decide, rfl⟩, by decide⟩
  have hcyc : Relation.TransGen (DirtyEdge cycleWorld.heap) 1 1 :=
    Relation.TransGen.tail (Relation.TransGen.single h12) h21
  ⟨hcyc, by decide, by rfl,
    (compute_dirty_cycle_diverges sampleEnv cycleWorld 1 hcyc).2 (by decide)⟩

/-- C13 fails as stated: in `haltingCycleWorld` the dirty blend node at
address 1 lies on the cycle blend -> distance -> blend of input connections,
the distance node is clean, and `compute` on the blend node returns at
recursion depth 1, having dispatched its own algorithm only. -/
theorem compute_on_cycle_returns :
    Relation.TransGen (Edge haltingCycleWorld.heap) 1 1 ∧
    dirtyAt haltingCycleWorld.heap 1 = true ∧
    dirtyAt haltingCycleWorld.heap 2 = false ∧
    ∃ w1, NodeInstance.compute sampleEnv 1 haltingCycleWorld 1 = .ok w1 ∧
      w1.dispatched = haltingCycleWorld.dispatched ++ [1] :=
  have h12 : Edge haltingCycleWorld.heap 1 2 := ⟨Connection.mk (some 2) 0, by decide, rfl⟩
  have h21 : Edge haltingCycleWorld.heap 2 1 := ⟨Connection.mk (some 1) 0, by decide, rfl⟩
  ⟨Relation.TransGen.tail (Relation.TransGen.single h12) h21, by decide, by decide,
    orElse (NodeInstance.compute sampleEnv 1 haltingCycleWorld 1) emptyWorld,
    by rfl, by decide⟩

/-! ## Input binding -/

theorem lookup0_cons_self {κ : Type} [DecidableEq κ] (l : List (κ × Nat)) (k : κ) (v : Nat) :
    lookup0 ((k, v) :: l) k = v := by
  simp [lookup0]

theorem lookup0_cons_ne {κ : Type} [DecidableEq κ] (l : List (κ × Nat)) {k u : κ} (v : Nat)
    (h : k ≠ u) : lookup0 ((k, v) :: l) u = lookup0 l u := by
  simp [lookup0, h]

/-- What the input loop has done when it returns, started with unit `k`:
it has logged the binds of the occupied slots and nothing else, the `j`-th
occupied slot has its source's texture 0 on unit `k + j`, the units below `k`
are as they were, and every source was a live instance. -/
theorem pullInputs_calls (heap : List NodeInstance) :
    ∀ (cs : List Connection) (k : Nat) (g g1 : GLState),
      NodeInstance.pullInputs heap cs k g = .ok g1 →
      g1.calls = g.calls ++ bindCalls heap k (occupied cs) ∧
      (∀ j p, (occupied cs)[j]? = some p → g1.boundTexture (k + j) = texture0 heap p) ∧
      (∀ u, u < k → g1.boundTexture u = g.boundTexture u) ∧
      (∀ p ∈ occupied cs, p < heap.length) := by
  intro cs
  induction cs with
  | nil =>
    intro k g g1 h
    simp only [NodeInstance.pullInputs, Except.ok.injEq] at h
    subst h
    simp [occupied, bindCalls]
  | cons c cs ih =>
    intro k g g1 h
    unfold NodeInstance.pullInputs at h
    cases hp : c.ptrNode with
    | none =>
      simp only [hp] at h
      have ho : occupied (c :: cs) = occupied cs := by simp [occupied, hp]
      rw [ho]
      exact ih k g g1 h
    | some p =>
      simp only [hp, bind_ok, deref_ok] at h
      obtain ⟨src, hsrc, h⟩ := h
      have ho : occupied (c :: cs) = p :: occupied cs := by simp [occupied, hp]
      have ht : texture0 heap p = src.m_gl_texture_ids.getD 0 0 := by simp [texture0, hsrc]
      obtain ⟨h1, h2, h3, h4⟩ := ih (k + 1) _ g1 h
      rw [ho]
      refine ⟨?_, ?_, ?_, ?_⟩
      · rw [h1]
        simp [bindCalls, ht, glBindTexture, glActiveTexture, GLState.log]
      · intro j q hq
        cases j with
        | zero =>
          simp only [List.getElem?_cons_zero, Option.some.injEq] at hq
          subst hq
          rw [Nat.add_zero, h3 k (Nat.lt_succ_self k), ht]
          simp [GLState.boundTexture, glBindTexture, glActiveTexture, GLState.log, lookup0]
        | succ j =>
          simp only [List.getElem?_cons_succ] at hq
          have := h2 j q hq
          rw [show k + (j + 1) = k + 1 + j by omega]
          exact this
      · intro u hu
        rw [h3 u (by omega)]
        have hne : k ≠ u := by omega
        simp [GLState.boundTexture, glBindTexture, glActiveTexture, GLState.log, lookup0, hne]
      · intro q hq
        rcases List.mem_cons.1 hq with e | e
        · rw [e]; exact lt_length_of_getElem? hsrc
        · exact h4 q e

theorem bindCalls_count (heap : List NodeInstance) :
    ∀ (ps : List Nat) (k : Nat),
      ((bindCalls heap k ps).filter GLCall.isBindTexture).length = ps.length := by
  intro ps
  induction ps with
  | nil => intro k; rfl
  | cons p ps ih =>
    intro k
    simp [bindCalls, GLCall.isBindTexture, List.filter_cons, ih]

/-- The input loop reads the connected instance of each slot only, never
the output index stored with it. -/
theorem pullInputs_congr (heap : List NodeInstance) :
    ∀ (cs cs1 : List Connection) (k : Nat) (g : GLState),
      cs1.map (fun c => c.ptrNode) = cs.map (fun c => c.ptrNode) →
      NodeInstance.pullInputs heap cs1 k g = NodeInstance.pullInputs heap cs k g := by
  intro cs
  induction cs with
  | nil =>
    intro cs1 k g h
    cases cs1 with
    | nil => rfl
    | cons c1 cs1 => simp at h
  | cons c cs ih =>
    intro cs1 k g h
    cases cs1 with
    | nil => simp at h
    | cons c1 cs1 =>
      simp only [List.map_cons, List.cons.injEq] at h
      obtain ⟨hc, hrest⟩ := h
      unfold NodeInstance.pullInputs
      rw [hc]
      cases c.ptrNode with
      | none => exact ih cs1 k g hrest
      | some p =>
        simp only []
        cases heap[p]? with
        | none => rfl
        | some src =>
          simp only [deref, Except.bind]
          exact ih cs1 _ _ hrest

/-- C14: input binding in `compute`. The input loop over the slots `cs`,
all of whose sources are live, returns; it issues, for the `k`-th occupied
slot in slot order (`k` counted from 0 over the occupied slots), the
selection of texture unit `k` and the bind of texture 0 of the slot's source,
and no other call, so that unit `k` then holds that texture and there are as
many binds as occupied slots. An unconnected slot adds no call and uses no
unit, and the output index stored in a connection has no influence. In every
`compute` that returns, the node-type algorithm starts in the state these
binds leave, with unit 0 selected. -/
theorem compute_binds_inputs (heap : List NodeInstance) (cs : List Connection) (g : GLState)
    (hv : ∀ c ∈ cs, ∀ p, c.ptrNode = some p → p < heap.length) :
    (∃ g1, NodeInstance.pullInputs heap cs 0 g = .ok g1 ∧
      g1.calls = g.calls ++ bindCalls heap 0 (occupied cs) ∧
      (∀ k p, (occupied cs)[k]? = some p → g1.boundTexture k = texture0 heap p) ∧
      ((bindCalls heap 0 (occupied cs)).filter GLCall.isBindTexture).length =
        (occupied cs).length) ∧
    (∀ o k, NodeInstance.pullInputs heap (Connection.mk none o :: cs) k g =
      NodeInstance.pullInputs heap cs k g) ∧
    (∀ cs1 : List Connection, cs1.map (fun c => c.ptrNode) = cs.map (fun c => c.ptrNode) →
      NodeInstance.pullInputs heap cs1 0 g = NodeInstance.pullInputs heap cs 0 g) ∧
    (∀ (env : Env) (depth : Nat) (w : World) (d : Nat) (w1 : World),
      NodeInstance.compute env depth w d = .ok w1 →
      ∃ (w2 : World) (X : NodeInstance) (g1 : GLState) (type : BaseNode)
        (r : NodeInstance × GLState),
        w2.heap[d]? = some X ∧ X.m_con_inputs = inputsAt w.heap d ∧
        NodeInstance.pullInputs w2.heap X.m_con_inputs 0 w2.gl = .ok g1 ∧
        g1.calls = w2.gl.calls ++ bindCalls w2.heap 0 (occupied X.m_con_inputs) ∧
        (∀ k p, (occupied X.m_con_inputs)[k]? = some p →
          (glActiveTexture g1 0).boundTexture k = texture0 w2.heap p) ∧
        (glActiveTexture g1 0).activeUnit = 0 ∧
        Map.find env.NODELIB X.m_nodeid = some type ∧
        type.compute env X (glActiveTexture g1 0) = .ok r ∧ w1.gl = r.2) := by
  refine ⟨?_, ?_, ?_, ?_⟩
  · obtain ⟨g1, hg1⟩ := pullInputs_ok heap cs 0 g hv
    obtain ⟨h1, h2, -, -⟩ := pullInputs_calls heap cs 0 g g1 hg1
    refine ⟨g1, hg1, h1, ?_, bindCalls_count heap _ 0⟩
    intro k p hk
    have := h2 k p hk
    rwa [Nat.zero_add] at this
  · intro o k
    rfl
  · intro cs1 h
    exact pullInputs_congr heap cs cs1 0 g h
  · intro env depth w d w1 h
    cases depth with
    | zero => simp [NodeInstance.compute] at h
    | succ depth =>
      simp only [NodeInstance.compute, bind_ok, map_ok, deref_ok] at h
      obtain ⟨this0, h0, w2, hin, this1, h1, g1, hpull, type, hty, r, halg, rfl⟩ := h
      obtain ⟨t, ht⟩ := computeInputs_spec (NodeInstance.compute env depth)
        (fun w p w1 hr _ => compute_spec env depth w p w1 hr) _ _ _ hin
      have hinp : this1.m_con_inputs = inputsAt w.heap d := by
        have := inputsAt_congr ht.adv.fixed d
        simp only [inputsAt, h1] at this
        exact this
      obtain ⟨c1, c2, -, -⟩ := pullInputs_calls w2.heap this1.m_con_inputs 0 w2.gl g1 hpull
      refine ⟨w2, this1, g1, type, r, h1, hinp, hpull, c1, ?_, rfl, hty, halg, rfl⟩
      intro k p hk
      have := c2 k p hk
      rw [Nat.zero_add] at this
      exact this

/-- C14 on the blend node of the samples with its first input unconnected
and the distance node on its second input: the distance node's texture 0 is
bound to unit 0, by the only bind. -/
theorem compute_binds_inputs_witness :
    (instAt gapWorld 1).m_con_inputs = [Connection.mk none 0, Connection.mk (some 2) 0] ∧
    (∀ c ∈ (instAt gapWorld 1).m_con_inputs, ∀ p, c.ptrNode = some p →
      p < gapWorld.heap.length) ∧
    ∃ g1, NodeInstance.pullInputs gapWorld.heap (instAt gapWorld 1).m_con_inputs 0 gapWorld.gl
        = .ok g1 ∧
      g1.calls = gapWorld.gl.calls ++
        [GLCall.activeTexture 0, GLCall.bindTexture (texture0 gapWorld.heap 2)] ∧
      g1.boundTexture 0 = (instAt gapWorld 2).m_gl_texture_ids.getD 0 0 := by
  refine ⟨by decide, by decide, ?_⟩
  obtain ⟨⟨g1, h1, h2, h3, -⟩, -⟩ := compute_binds_inputs gapWorld.heap
    (instAt gapWorld 1).m_con_inputs gapWorld.gl (by decide)
  refine ⟨g1, h1, ?_, ?_⟩
  · rw [h2]
    have : bindCalls gapWorld.heap 0 (occupied (instAt gapWorld 1).m_con_inputs) =
        [GLCall.activeTexture 0, GLCall.bindTexture (texture0 gapWorld.heap 2)] := by decide
    rw [this]
  · rw [h3 0 2 (by decide)]
    decide

/-! ## Termination, and one execution per instance -/

/-- C15: for a finite set of instances without dangling connections whose
input connections contain no cycle, `compute` on any live instance
terminates: a recursion depth exists from which it returns. During the call
the algorithm of each instance is dispatched at most once. -/
theorem compute_terminates_once (env : Env) (w : World) (d : Nat)
    (hwf : wellFormed env w.heap = true) (hac : Acyclic w.heap) (hd : d < w.heap.length) :
    ∃ N, ∀ depth, N ≤ depth → ∃ w1 t,
      NodeInstance.compute env depth w d = .ok w1 ∧
      w1.dispatched = w.dispatched ++ t ∧ t.Nodup ∧ ∀ a, t.count a ≤ 1 := by
  obtain ⟨N, hN⟩ := compute_returns env w hwf hac d hd
  refine ⟨N, fun depth hdep => ?_⟩
  obtain ⟨w1, hw1⟩ := hN depth hdep w rfl
  obtain ⟨t, ht⟩ := compute_spec env depth w d w1 hw1
  have hnd := ht.nodup hac
  exact ⟨w1, t ++ [d], hw1, ht.adv.log, hnd, fun a => List.nodup_iff_count_le_one.1 hnd a⟩

/-- C15 on the samples with the texture loader feeding both inputs of the
blend node and the blend node feeding the distance node: `compute` on the
distance node dispatches each algorithm once, the texture loader first. -/
theorem compute_terminates_once_witness :
    wellFormed sampleEnv diamondWorld.heap = true ∧ Acyclic diamondWorld.heap ∧
    2 < diamondWorld.heap.length ∧
    (instAt diamondWorld 1).m_con_inputs = [Connection.mk (some 0) 0, Connection.mk (some 0) 0] ∧
    (orElse (NodeInstance.compute sampleEnv 3 diamondWorld 2) emptyWorld).dispatched
      = [0, 1, 2] ∧
    ∃ N, ∀ depth, N ≤ depth → ∃ w1 t,
      NodeInstance.compute sampleEnv depth diamondWorld 2 = .ok w1 ∧
      w1.dispatched = diamondWorld.dispatched ++ t ∧ t.Nodup ∧ ∀ a, t.count a ≤ 1 :=
  ⟨by decide, acyclic_of_rankedBy id _ (by decide), by decide, by decide, by decide,
    compute_terminates_once sampleEnv diamondWorld 2 (by decide)
      (acyclic_of_rankedBy id _ (by decide)) (by decide)⟩

end TARCF
